import Mathlib

/-!
Verification development for the WordPress WXR → Markdown converter
(`convert.py`).  The converter's two components are embedded shallowly:

* the Markup Transformer `html_to_markdown`, a fixed-order cascade of
  `re.sub` rewrites over the HTML body, modelled as deterministic
  left-to-right scanners over `List Char` (one scanner per `re.sub`
  call, each implementing exactly the backtracking behaviour of the
  concrete pattern it embeds);
* the Export Reader `parse_wordpress_xml` together with
  `_detect_wp_namespace` and `sanitize_filename`, modelled over an
  explicit element-tree type standing for the already-parsed
  `xml.etree.ElementTree` document (the file/byte parsing boundary is
  outside the embedding; the tree is the parser's output).

Machine-level caveats of the model are documented at the definitions
concerned (ASCII ranges for Python's `\w`/`\s`/`str.lower`, and the
named-entity subset of `html.unescape`).
-/

namespace WpMd

/-- Python `str.strip()` whitespace test, restricted to the ASCII range
(space, tab, newline, carriage return, form feed, vertical tab). -/
def isPySpace (c : Char) : Bool :=
  decide (c = ' ') || decide (c = '\t') || decide (c = '\n') ||
  decide (c = '\r') || decide (c = '\x0c') || decide (c = '\x0b')

/-- Python regex `\w` (word character), restricted to the ASCII range:
letters, digits, and the underscore. -/
def isWordChar (c : Char) : Bool :=
  c.isAlphanum || decide (c = '_')

/-- List-of-characters prefix test (`pat` is a prefix of `s`). -/
def startsWithL : List Char → List Char → Bool
  | [], _ => true
  | _ :: _, [] => false
  | p :: ps, c :: cs => decide (p = c) && startsWithL ps cs

/-- Drop the literal `pat` from the front of `s`; `none` if `s` does not
start with `pat`. -/
def dropLit : List Char → List Char → Option (List Char)
  | [], s => some s
  | _ :: _, [] => none
  | p :: ps, c :: cs => if p = c then dropLit ps cs else none

/-- Case-insensitive variant of `dropLit` (for the `re.IGNORECASE`
patterns); returns the consumed original characters and the rest. -/
def dropLitCI : List Char → List Char → Option (List Char × List Char)
  | [], s => some ([], s)
  | _ :: _, [] => none
  | p :: ps, c :: cs =>
    if p.toLower = c.toLower then
      match dropLitCI ps cs with
      | some (tk, r) => some (c :: tk, r)
      | none => none
    else none

/-- Split `s` at the first occurrence of the literal `pat`: returns the
text before the occurrence and the text after it.  This is the engine of
every lazy group `(.*?)pat` in the source's patterns. -/
def splitAtFirst (pat : List Char) : List Char → Option (List Char × List Char)
  | [] =>
    match dropLit pat [] with
    | some r => some ([], r)
    | none => none
  | c :: cs =>
    match dropLit pat (c :: cs) with
    | some r => some ([], r)
    | none =>
      match splitAtFirst pat cs with
      | some (pre, post) => some (c :: pre, post)
      | none => none

/-- Case-insensitive `splitAtFirst`; also returns the matched occurrence
as it appears in `s` (the source keeps `m.group(0)` verbatim). -/
def splitAtFirstCI (pat : List Char) : List Char → Option (List Char × List Char × List Char)
  | [] =>
    match dropLitCI pat [] with
    | some (tk, r) => some ([], tk, r)
    | none => none
  | c :: cs =>
    match dropLitCI pat (c :: cs) with
    | some (tk, r) => some ([], tk, r)
    | none =>
      match splitAtFirstCI pat cs with
      | some (pre, tk, post) => some (c :: pre, tk, post)
      | none => none

/-- Python's substring containment (`pat in s`). -/
def containsSeq (pat s : List Char) : Bool :=
  (splitAtFirst pat s).isSome

/-- Python `str.replace(old, new)`: replace every non-overlapping
occurrence of `old`, scanning left to right, never rescanning the
replacement text.  Fuel-driven; the wrapper supplies `s.length`, enough
because every step consumes at least one input character (`old` is
nonempty at every call site). -/
def replaceAllAux (old new : List Char) : Nat → List Char → List Char
  | 0, s => s
  | _ + 1, [] => []
  | fuel + 1, c :: cs =>
    match dropLit old (c :: cs) with
    | some r =>
      if old.isEmpty then c :: replaceAllAux old new fuel cs
      else new ++ replaceAllAux old new fuel r
    | none => c :: replaceAllAux old new fuel cs

/-- See `replaceAllAux`. -/
def replaceAll (old new s : List Char) : List Char :=
  replaceAllAux old new s.length s

/-- Python `str.strip()` over the ASCII whitespace set. -/
def pyStrip (s : List Char) : List Char :=
  ((s.dropWhile isPySpace).reverse.dropWhile isPySpace).reverse

/-- Python `str.strip('-')`. -/
def stripDash (s : List Char) : List Char :=
  ((s.dropWhile (fun c => decide (c = '-'))).reverse.dropWhile
    (fun c => decide (c = '-'))).reverse

/-- A matcher attempts a regex match anchored at the current position; on
success it yields the replacement text and the input remaining after the
matched span.  Every matcher in this file consumes at least one
character on success. -/
abbrev Matcher := List Char → Option (List Char × List Char)

/-- The `re.sub` loop: scan left to right, replace each leftmost match,
continue after the matched span (replacements are never rescanned).
Fuel-driven; the wrapper supplies `s.length`, sufficient since every
step consumes at least one input character. -/
def runSubAux (m : Matcher) : Nat → List Char → List Char
  | 0, s => s
  | _ + 1, [] => []
  | fuel + 1, c :: cs =>
    match m (c :: cs) with
    | some (repl, rest) => repl ++ runSubAux m fuel rest
    | none => c :: runSubAux m fuel cs

/-- See `runSubAux`. -/
def runSub (m : Matcher) (s : List Char) : List Char :=
  runSubAux m s.length s

/-- Matcher for `<TAG[^>]*>(.*?)</TAG>` (with `re.DOTALL`), the shape of
the heading, blockquote, list, bold, italic and paragraph patterns:
literal opener, greedy run of non-`>` characters, `>`, then the lazy
group up to the earliest closing literal. -/
def tagMatcher (openLit closeLit : List Char) (build : List Char → List Char) : Matcher :=
  fun s =>
    match dropLit openLit s with
    | none => none
    | some r1 =>
      match r1.dropWhile (fun c => !decide (c = '>')) with
      | '>' :: r3 =>
        match splitAtFirst closeLit r3 with
        | none => none
        | some (grp, rest) => some (build grp, rest)
      | _ => none

/-- Decimal digits of a natural number, for the `f'{i+1}. '` list
numbering and the `___IFRAME_{n}___` markers. -/
def natDigits (n : Nat) : List Char :=
  (Nat.repr n).data

/-- Python `'\n'.join`. -/
def joinSep (sep : List Char) : List (List Char) → List Char
  | [] => []
  | [x] => x
  | x :: xs => x ++ sep ++ joinSep sep xs

/-- `re.findall(r'<li[^>]*>(.*?)</li>', s, re.DOTALL)`: the groups of the
non-overlapping leftmost matches, in order. -/
def liScanAux : Nat → List Char → List (List Char)
  | 0, _ => []
  | _ + 1, [] => []
  | fuel + 1, c :: cs =>
    match tagMatcher "<li".data "</li>".data id (c :: cs) with
    | some (grp, rest) => grp :: liScanAux fuel rest
    | none => liScanAux fuel cs

/-- See `liScanAux`. -/
def findLi (s : List Char) : List (List Char) :=
  liScanAux s.length s

/-- Replacement builder for the blockquote rule `_convert_blockquote`:
`'\n> ' + group.strip().replace('\n', '\n> ') + '\n'`. -/
def bqBuild (g : List Char) : List Char :=
  "\n> ".data ++ replaceAll ['\n'] "\n> ".data (pyStrip g) ++ ['\n']

/-- Replacement builder for the ordered-list rule `_convert_ol`. -/
def olBuild (g : List Char) : List Char :=
  '\n' :: joinSep ['\n']
    ((findLi g).enum.map (fun p => natDigits (p.1 + 1) ++ ". ".data ++ pyStrip p.2))
  ++ ['\n']

/-- Replacement builder for the unordered-list rule `_convert_ul`. -/
def ulBuild (g : List Char) : List Char :=
  '\n' :: joinSep ['\n'] ((findLi g).map (fun it => "- ".data ++ pyStrip it)) ++ ['\n']

/-- Decimal digit character for heading levels 1–6. -/
def natDigit (n : Nat) : Char := Char.ofNat (48 + n)

/-- Matcher of the heading rule for level `n`:
`<hN[^>]*>(.*?)</hN>` replaced by `'#' * N + ' ' + group`. -/
def hMatcher (n : Nat) : Matcher :=
  tagMatcher ['<', 'h', natDigit n] ['<', '/', 'h', natDigit n, '>']
    (fun g => List.replicate n '#' ++ ' ' :: g)

/-- The six heading substitutions, applied for levels 1 through 6 in
order, exactly as the source's `for level in range(1, 7)` loop. -/
def headingPass (content : List Char) : List Char :=
  [1, 2, 3, 4, 5, 6].foldl (fun acc n => runSub (hMatcher n) acc) content

/-- Quote character test for the `["\']` pieces of the link and image
patterns (either quote kind closes either). -/
def isQuote (c : Char) : Bool :=
  decide (c = '"') || decide (c = '\'')

/-- Tail of the link pattern after the href value and its closing quote:
`[^>]*>(.*?)</a>`, producing the replacement `[\2](\1)`. -/
def aMatchTail (url r3 : List Char) : Option (List Char × List Char) :=
  match r3.dropWhile (fun c => !decide (c = '>')) with
  | '>' :: r4 =>
    match splitAtFirst "</a>".data r4 with
    | none => none
    | some (txt, rest) => some ('[' :: txt ++ ']' :: '(' :: url ++ [')'], rest)
  | _ => none

/-- One backtracking attempt of the link pattern with the leading
`[^>]*` bound to exactly `L` characters of `r1`: requires the literal
`href=`, a quote, the greedy `[^"\']*` value, a closing quote, then the
pattern tail. -/
def hrefAttempt (r1 : List Char) (L : Nat) : Option (List Char × List Char) :=
  match dropLit "href=".data (r1.drop L) with
  | none => none
  | some r3 =>
    match r3 with
    | q :: r4 =>
      if isQuote q then
        let url := r4.takeWhile (fun c => !isQuote c)
        match r4.dropWhile (fun c => !isQuote c) with
        | q2 :: r5 => if isQuote q2 then aMatchTail url r5 else none
        | [] => none
      else none
    | [] => none

/-- Greedy backtracking over the length of the leading `[^>]*`: longest
candidate first, exactly the regex engine's order. -/
def hrefSearch (r1 : List Char) : Nat → Option (List Char × List Char)
  | 0 => hrefAttempt r1 0
  | L + 1 =>
    match hrefAttempt r1 (L + 1) with
    | some res => some res
    | none => hrefSearch r1 L

/-- Matcher of the link rule
`<a[^>]*href=["\']([^"\']*)["\'][^>]*>(.*?)</a>` (with `re.DOTALL`). -/
def aMatcher : Matcher := fun s =>
  match dropLit "<a".data s with
  | none => none
  | some r1 => hrefSearch r1 (r1.takeWhile (fun c => !decide (c = '>'))).length

/-- Tail `[^>]*/?>` of the image patterns: since `[^>]*` greedily
absorbs any `/`, this is a run of non-`>` characters followed by `>`. -/
def imgTail (rest : List Char) : Option (List Char) :=
  match rest.dropWhile (fun c => !decide (c = '>')) with
  | '>' :: r => some r
  | _ => none

/-- One attempt of `KEY["\'](...)["\']` with the preceding `[^>]*` bound
to `L` characters: used for the `src=` and `alt=` pieces of the image
patterns; returns the quoted value and the remainder. -/
def attrAttempt (key r : List Char) (L : Nat) : Option (List Char × List Char) :=
  match dropLit key (r.drop L) with
  | none => none
  | some r3 =>
    match r3 with
    | q :: r4 =>
      if isQuote q then
        let v := r4.takeWhile (fun c => !isQuote c)
        match r4.dropWhile (fun c => !isQuote c) with
        | _ :: r5 => some (v, r5)
        | [] => none
      else none
    | [] => none

/-- Inner backtracking of the first image pattern: find the `alt=` piece
(longest `[^>]*` first) such that the tail `[^>]*/?>` also matches. -/
def altSearch (srcVal r4 : List Char) : Nat → Option (List Char × List Char)
  | 0 =>
    match attrAttempt "alt=".data r4 0 with
    | some (altVal, r5) =>
      match imgTail r5 with
      | some rest => some ('!' :: '[' :: altVal ++ ']' :: '(' :: srcVal ++ [')'], rest)
      | none => none
    | none => none
  | L + 1 =>
    match attrAttempt "alt=".data r4 (L + 1) with
    | some (altVal, r5) =>
      match imgTail r5 with
      | some rest => some ('!' :: '[' :: altVal ++ ']' :: '(' :: srcVal ++ [')'], rest)
      | none => altSearch srcVal r4 L
    | none => altSearch srcVal r4 L

/-- Outer backtracking of the first image pattern over the `[^>]*`
before `src=`. -/
def srcAltSearch (r1 : List Char) : Nat → Option (List Char × List Char)
  | 0 =>
    match attrAttempt "src=".data r1 0 with
    | some (srcVal, r4) =>
      altSearch srcVal r4 (r4.takeWhile (fun c => !decide (c = '>'))).length
    | none => none
  | L + 1 =>
    match attrAttempt "src=".data r1 (L + 1) with
    | some (srcVal, r4) =>
      match altSearch srcVal r4 (r4.takeWhile (fun c => !decide (c = '>'))).length with
      | some res => some res
      | none => srcAltSearch r1 L
    | none => srcAltSearch r1 L

/-- Matcher of the first image rule
`<img[^>]*src=["\']([^"\']*)["\'][^>]*alt=["\']([^"\']*)["\'][^>]*/?>`
replaced by `![\2](\1)`. -/
def img1Matcher : Matcher := fun s =>
  match dropLit "<img".data s with
  | none => none
  | some r1 => srcAltSearch r1 (r1.takeWhile (fun c => !decide (c = '>'))).length

/-- Backtracking of the second image pattern over the `[^>]*` before
`src=`. -/
def srcOnlySearch (r1 : List Char) : Nat → Option (List Char × List Char)
  | 0 =>
    match attrAttempt "src=".data r1 0 with
    | some (srcVal, r4) =>
      match imgTail r4 with
      | some rest => some ('!' :: '[' :: ']' :: '(' :: srcVal ++ [')'], rest)
      | none => none
    | none => none
  | L + 1 =>
    match attrAttempt "src=".data r1 (L + 1) with
    | some (srcVal, r4) =>
      match imgTail r4 with
      | some rest => some ('!' :: '[' :: ']' :: '(' :: srcVal ++ [')'], rest)
      | none => srcOnlySearch r1 L
    | none => srcOnlySearch r1 L

/-- Matcher of the second image rule
`<img[^>]*src=["\']([^"\']*)["\'][^>]*/?>` replaced by `![](\1)`. -/
def img2Matcher : Matcher := fun s =>
  match dropLit "<img".data s with
  | none => none
  | some r1 => srcOnlySearch r1 (r1.takeWhile (fun c => !decide (c = '>'))).length

/-- Matcher of the line-break rule `<br\s*/?>` replaced by a newline. -/
def brMatcher : Matcher := fun s =>
  match dropLit "<br".data s with
  | none => none
  | some r1 =>
    match r1.dropWhile isPySpace with
    | '/' :: '>' :: rest => some (['\n'], rest)
    | '>' :: rest => some (['\n'], rest)
    | _ => none

/-- Matcher of `<NAME[^>]*>.*?</NAME>` under `re.DOTALL | re.IGNORECASE`
(the iframe and script preservation patterns).  The whole match
`m.group(0)` is returned verbatim, in its original casing. -/
def embedMatch (nameLit : List Char) : List Char → Option (List Char × List Char) :=
  fun s =>
    match dropLitCI ('<' :: nameLit) s with
    | none => none
    | some (op, r1) =>
      let attrs := r1.takeWhile (fun c => !decide (c = '>'))
      match r1.dropWhile (fun c => !decide (c = '>')) with
      | '>' :: r3 =>
        match splitAtFirstCI ('<' :: '/' :: nameLit ++ ['>']) r3 with
        | none => none
        | some (inner, cl, rest) => some (op ++ attrs ++ '>' :: inner ++ cl, rest)
      | _ => none

/-- The `f'___IFRAME_{i}___'` / `f'___SCRIPT_{i}___'` marker text. -/
def markerFor (base : List Char) (i : Nat) : List Char :=
  "___".data ++ base ++ '_' :: natDigits i ++ "___".data

/-- The stateful `re.sub` of `_save_iframe` / `_save_script`: each match
is appended to the table and replaced in-line by the marker carrying its
index.  Returns the table and the rewritten text. -/
def extractAux (base nameLit : List Char) : Nat → Nat → List Char → List (List Char) × List Char
  | 0, _, s => ([], s)
  | _ + 1, _, [] => ([], [])
  | fuel + 1, k, c :: cs =>
    match embedMatch nameLit (c :: cs) with
    | some (block, rest) =>
      let res := extractAux base nameLit fuel (k + 1) rest
      (block :: res.1, markerFor base k ++ res.2)
    | none =>
      let res := extractAux base nameLit fuel k cs
      (res.1, c :: res.2)

/-- See `extractAux`. -/
def extract (base nameLit s : List Char) : List (List Char) × List Char :=
  extractAux base nameLit s.length 0 s

/-- The marker-restoration loops: for each table entry in order,
`content.replace(marker_i, '\n\n' + block + '\n\n')`. -/
def restoreBlocks (base : List Char) (blocks : List (List Char)) (content : List Char) : List Char :=
  blocks.enum.foldl
    (fun acc p => replaceAll (markerFor base p.1) ('\n' :: '\n' :: p.2 ++ ['\n', '\n']) acc)
    content

/-- Matcher of the residual tag-stripping rule `<[^>]+>` (replaced by
nothing). -/
def stripTagMatcher : Matcher := fun s =>
  match s with
  | [] => none
  | c :: r1 =>
    if c = '<' then
      match r1.takeWhile (fun x => !decide (x = '>')), r1.dropWhile (fun x => !decide (x = '>')) with
      | [], _ => none
      | _ :: _, '>' :: rest => some ([], rest)
      | _, _ => none
    else none

/-- Matcher of the whitespace-collapse rule `\n{3,}` replaced by exactly
two newlines (the greedy run of three or more is consumed whole). -/
def nlMatcher : Matcher := fun s =>
  match dropLit ['\n', '\n', '\n'] s with
  | none => none
  | some r => some (['\n', '\n'], r.dropWhile (fun c => decide (c = '\n')))

/-- Character class of Python's named character-reference matcher
`&([^\t\n\f <&#;]{1,32};?)` (the name part). -/
def entNameChar (c : Char) : Bool :=
  !(decide (c = '\t') || decide (c = '\n') || decide (c = '\x0c') || decide (c = ' ') ||
    decide (c = '<') || decide (c = '&') || decide (c = '#') || decide (c = ';'))

/-- The slice of Python's `html5` entity table used by this development:
the basic XML/HTML entities, each in its with- and without-semicolon
form, exactly as both forms appear in the stdlib table. -/
def entKeys : List (List Char × List Char) :=
  [("amp;".data, "&".data), ("amp".data, "&".data),
   ("lt;".data, "<".data), ("lt".data, "<".data),
   ("gt;".data, ">".data), ("gt".data, ">".data),
   ("quot;".data, "\"".data), ("quot".data, "\"".data),
   ("nbsp;".data, [Char.ofNat 160]), ("nbsp".data, [Char.ofNat 160])]

/-- Exact lookup in the entity table. -/
def entLookup (g : List Char) : Option (List Char) :=
  (entKeys.find? (fun p => decide (p.1 = g))).map (fun p => p.2)

/-- The longest-matching-prefix fallback of `html._replace_charref`:
`for x in range(len(s)-1, 1, -1): if s[:x] in html5: ...`. -/
def entPrefixSearch (g : List Char) : Nat → Option (List Char)
  | 0 => none
  | x + 1 =>
    if x + 1 < 2 then none
    else
      match entLookup (g.take (x + 1)) with
      | some rep => some (rep ++ g.drop (x + 1))
      | none => entPrefixSearch g x

/-- Matcher embedding `html.unescape` restricted to named character
references over `entKeys`: Python's charref regex matched at `&`, then
exact lookup, then the longest-prefix fallback, and otherwise the
matched text kept as is.  Numeric (`&#...`) references and names outside
`entKeys` are left undecoded by the model (the inputs of every theorem
below stay inside this fragment: their references are drawn from
`entKeys`, or they contain no `&` at all). -/
def unescMatch : Matcher := fun s =>
  match s with
  | [] => none
  | c :: r =>
    if c = '&' then
      let name := (r.takeWhile entNameChar).take 32
      if name.isEmpty then none
      else
        let afterName := r.drop name.length
        let gr :=
          match afterName with
          | ';' :: r2 => (name ++ [';'], r2)
          | _ => (name, afterName)
        match entLookup gr.1 with
        | some rep => some (rep, gr.2)
        | none =>
          match entPrefixSearch gr.1 (gr.1.length - 1) with
          | some rep => some (rep, gr.2)
          | none => some ('&' :: gr.1, gr.2)
    else none

/-- The Markup Transformer `html_to_markdown` over character lists: the
source's substitutions, in the source's order. -/
def htmlToMarkdownL (input : List Char) : List Char :=
  if input.isEmpty then []
  else
    let c0 := runSub unescMatch input
    let c1 := replaceAll "<![CDATA[".data [] c0
    let c2 := replaceAll "]]>".data [] c1
    let c3 := headingPass c2
    let c4 := runSub (tagMatcher "<blockquote".data "</blockquote>".data bqBuild) c3
    let c5 := runSub (tagMatcher "<ol".data "</ol>".data olBuild) c4
    let c6 := runSub (tagMatcher "<ul".data "</ul>".data ulBuild) c5
    let c7 := runSub (tagMatcher "<strong".data "</strong>".data
      (fun g => '*' :: '*' :: g ++ "**".data)) c6
    let c8 := runSub (tagMatcher "<b".data "</b>".data
      (fun g => '*' :: '*' :: g ++ "**".data)) c7
    let c9 := runSub (tagMatcher "<em".data "</em>".data (fun g => '*' :: g ++ ['*'])) c8
    let c10 := runSub (tagMatcher "<i".data "</i>".data (fun g => '*' :: g ++ ['*'])) c9
    let c11 := runSub aMatcher c10
    let c12 := runSub img1Matcher c11
    let c13 := runSub img2Matcher c12
    let c14 := runSub brMatcher c13
    let c15 := runSub (tagMatcher "<p".data "</p>".data (fun g => g ++ ['\n', '\n'])) c14
    let ifr := extract "IFRAME".data "iframe".data c15
    let scr := extract "SCRIPT".data "script".data ifr.2
    let c18 := runSub stripTagMatcher scr.2
    let c19 := restoreBlocks "IFRAME".data ifr.1 c18
    let c20 := restoreBlocks "SCRIPT".data scr.1 c19
    let c21 := runSub nlMatcher c20
    let c22 := replaceAll "&nbsp;".data [' '] c21
    let c23 := replaceAll "&amp;".data ['&'] c22
    let c24 := replaceAll "&quot;".data ['"'] c23
    let c25 := replaceAll "&lt;".data ['<'] c24
    let c26 := replaceAll "&gt;".data ['>'] c25
    pyStrip c26

/-- The Markup Transformer on strings. -/
def html_to_markdown (s : String) : String :=
  String.mk (htmlToMarkdownL s.data)

/-- The slug helper `sanitize_filename`: lower-case, drop every
character outside `[\w\s-]`, collapse `[-\s]+` runs to a single hyphen,
strip hyphens at the ends.  Single-character class substitutions are
embedded directly: removal is a filter, and the run collapse is a
one-pass scanner over maximal runs.  Python's Unicode-aware `\w`, `\s`
and `str.lower` are modelled over the ASCII range. -/
def collapseAux : Bool → List Char → List Char
  | _, [] => []
  | inRun, c :: rest =>
    if isPySpace c || decide (c = '-') then
      if inRun then collapseAux true rest else '-' :: collapseAux true rest
    else c :: collapseAux false rest

/-- See `collapseAux`. -/
def sanitize_filename (title : String) : String :=
  let lowered := title.data.map Char.toLower
  let kept := lowered.filter (fun c => isWordChar c || isPySpace c || decide (c = '-'))
  String.mk (stripDash (collapseAux false kept))

/-- An `xml.etree.ElementTree` element: tag in Clark notation
(`{uri}local` for namespaced elements), attributes, text (Python `None`
modelled as `none`; an element without a text node has `text = none`),
and child elements in document order.  This is the parser's output; the
byte/file parsing boundary of `ET.parse` is outside the embedding. -/
inductive XElem : Type where
  | node (tag : String) (attrib : List (String × String)) (text : Option String)
      (children : List XElem)

/-- Tag accessor. -/
def XElem.tag : XElem → String
  | .node t _ _ _ => t

/-- Attribute-list accessor. -/
def XElem.attrib : XElem → List (String × String)
  | .node _ a _ _ => a

/-- Text accessor. -/
def XElem.text : XElem → Option String
  | .node _ _ x _ => x

/-- Children accessor. -/
def XElem.children : XElem → List XElem
  | .node _ _ _ cs => cs

mutual
/-- `elem.iter()`: the element followed by all of its descendants, in
document (preorder) order. -/
def XElem.iterAll : XElem → List XElem
  | .node t a x cs => .node t a x cs :: iterAllL cs

/-- Preorder walk of a forest of elements. -/
def iterAllL : List XElem → List XElem
  | [] => []
  | c :: cs => c.iterAll ++ iterAllL cs
end

/-- All strict descendants of an element, in document order (the
elements matched by an `.//` path from it). -/
def descendants (e : XElem) : List XElem :=
  iterAllL e.children

/-- `root.findall('.//item')`: every descendant tagged `item`, in
document order. -/
def findallItems (root : XElem) : List XElem :=
  (descendants root).filter (fun e => decide (e.tag = "item"))

/-- `elem.find(tag)`: first direct child with the given tag. -/
def findChild (e : XElem) (t : String) : Option XElem :=
  e.children.find? (fun c => decide (c.tag = t))

/-- `elem.attrib.get(key, default)` over the attribute list. -/
def attrGet (e : XElem) (k dflt : String) : String :=
  match e.attrib.find? (fun p => decide (p.1 = k)) with
  | some p => p.2
  | none => dflt

/-- `tag.split('}')[0].lstrip('{')`: the URI part of a Clark-notation
tag as the source extracts it. -/
def clarkUri (tag : String) : String :=
  String.mk ((tag.data.takeWhile (fun c => !decide (c = '}'))).dropWhile
    (fun c => decide (c = '{')))

/-- The export-family substring probed for by the detector. -/
def wpSub : List Char := "wordpress.org/export".data

/-- The fixed content namespace URI. -/
def contentNs : String := "http://purl.org/rss/1.0/modules/content/"

/-- The fixed Dublin-Core namespace URI. -/
def dcNs : String := "http://purl.org/dc/elements/1.1/"

/-- The last-resort default export namespace URI. -/
def defaultWpNs : String := "http://wordpress.org/export/1.2/"

/-- The historical version URIs probed in the source's fallback, in the
source's order (`'1.2', '1.1', '1.0'`). -/
def wpCandidates : List String :=
  ["http://wordpress.org/export/1.2/", "http://wordpress.org/export/1.1/",
   "http://wordpress.org/export/1.0/"]

/-- The detector's tree walk: first element whose tag starts with `{`
and whose extracted URI contains the export-family substring; its URI is
adopted and the walk stops. -/
def scanWp : List XElem → Option String
  | [] => none
  | e :: rest =>
    if startsWithL ['{'] e.tag.data then
      let uri := clarkUri e.tag
      if containsSeq wpSub uri.data then some uri else scanWp rest
    else scanWp rest

/-- `root.find('.//{cand}post_type') is not None`: a strict descendant
with the given tag exists. -/
def hasDescendantTag (root : XElem) (t : String) : Bool :=
  (descendants root).any (fun e => decide (e.tag = t))

/-- The fallback probe over the historical version URIs. -/
def probeWp (root : XElem) : List String → Option String
  | [] => none
  | cand :: rest =>
    if hasDescendantTag root ("\x7b" ++ cand ++ "\x7dpost_type") then some cand
    else probeWp root rest

/-- The namespace-resolution context returned by the detector. -/
structure NsMap where
  wp : String
  content : String
  dc : String
deriving DecidableEq

/-- `_detect_wp_namespace`: walk the tree for a used export-family URI;
fall back to probing the historical version URIs for a `post_type`
descendant; fall back to the fixed default.  The source's first loop
over `root.attrib` has an empty body (its conditional only `continue`s)
and computes nothing, so it has no counterpart here. -/
def _detect_wp_namespace (root : XElem) : NsMap :=
  let wp :=
    match scanWp root.iterAll with
    | some u => u
    | none =>
      match probeWp root wpCandidates with
      | some u => u
      | none => defaultWpNs
  { wp := wp, content := contentNs, dc := dcNs }

/-- Modelled from the spec (§4.1 namespace detection): the three-tier
algorithm as the spec words it — the first element in tree-walk order
whose namespace URI contains the export-family substring; else the first
historical version URI with a `post_type` element present; else the
fixed default; the content and Dublin-Core URIs fixed constants.  This
second definition exists only to be compared with
`_detect_wp_namespace` in the refinement claim. -/
def spec_detect_wp_namespace (root : XElem) : NsMap :=
  let wp :=
    match (root.iterAll.find? (fun e =>
        startsWithL ['{'] e.tag.data && containsSeq wpSub (clarkUri e.tag).data)).map
        (fun e => clarkUri e.tag) with
    | some u => u
    | none =>
      match wpCandidates.find? (fun cand =>
          hasDescendantTag root ("\x7b" ++ cand ++ "\x7dpost_type")) with
      | some u => u
      | none => defaultWpNs
  { wp := wp, content := contentNs, dc := dcNs }

/-- A post record (the dict produced per item).  The `content`, `date`
and `slug` fields model the source expressions
`el.text if el is not None else ''`, whose value is Python `None`
(modelled `none`) when the element is present without text; `some s`
models the Python string `s`.  The source's `type` key is `ptype`
here. -/
structure Post where
  title : String
  content : Option String
  date : Option String
  slug : Option String
  ptype : String
  status : String
  categories : List String
  tags : List String
deriving DecidableEq

/-- Python truthiness of `el is not None and el.text`: the text of the
element when the element exists and its text is neither `None` nor
empty. -/
def truthyText (o : Option XElem) : Option String :=
  match o with
  | none => none
  | some el =>
    match el.text with
    | none => none
    | some t => if t = "" then none else some t

/-- `el.text if el is not None else ''`: absent element gives the empty
string; present element gives its text verbatim (possibly `None`). -/
def rawText (o : Option XElem) : Option String :=
  match o with
  | none => some ""
  | some el => el.text

/-- The item's resolved type: `post_type` under the export namespace,
defaulting to `'post'`. -/
def resolvedType (wp : String) (item : XElem) : String :=
  match truthyText (findChild item ("\x7b" ++ wp ++ "\x7dpost_type")) with
  | some t => t
  | none => "post"

/-- The item's resolved status: `status` under the export namespace,
defaulting to the empty string. -/
def resolvedStatus (wp : String) (item : XElem) : String :=
  match truthyText (findChild item ("\x7b" ++ wp ++ "\x7dstatus")) with
  | some t => t
  | none => ""

/-- The record built from one accepted item (the `posts.append({...})`
of the source). -/
def mkPost (ns : NsMap) (item : XElem) : Post :=
  let cats := item.children.filter (fun c => decide (c.tag = "category"))
  { title :=
      match truthyText (findChild item "title") with
      | some t => t
      | none => "Untitled"
  , content := rawText (findChild item ("\x7b" ++ ns.content ++ "\x7dencoded"))
  , date := rawText (findChild item ("\x7b" ++ ns.wp ++ "\x7dpost_date"))
  , slug := rawText (findChild item ("\x7b" ++ ns.wp ++ "\x7dpost_name"))
  , ptype := resolvedType ns.wp item
  , status := resolvedStatus ns.wp item
  , categories :=
      (cats.filter (fun c => decide (attrGet c "domain" "" = "category"))).map
        (fun c => match c.text with | some t => t | none => "")
  , tags :=
      (cats.filter (fun c => decide (attrGet c "domain" "" = "post_tag"))).map
        (fun c => match c.text with | some t => t | none => "") }

/-- Type filter: `None` accepts everything, a set accepts its members
(set membership is modelled by list membership). -/
def typePasses (pt : Option (List String)) (ty : String) : Bool :=
  match pt with
  | none => true
  | some l => l.contains ty

/-- Status filter, as `typePasses`. -/
def statusPasses (ps : Option (List String)) (st : String) : Bool :=
  match ps with
  | none => true
  | some l => l.contains st

/-- The item loop of `parse_wordpress_xml`: filter by resolved type,
then by resolved status, and append the record of each accepted item. -/
def processItems (ns : NsMap) (pt ps : Option (List String)) : List XElem → List Post
  | [] => []
  | item :: rest =>
    if typePasses pt (resolvedType ns.wp item) then
      if statusPasses ps (resolvedStatus ns.wp item) then
        mkPost ns item :: processItems ns pt ps rest
      else processItems ns pt ps rest
    else processItems ns pt ps rest

/-- `parse_wordpress_xml` over an already-parsed document tree. -/
def parse_wordpress_xml (root : XElem) (post_types post_statuses : Option (List String)) :
    List Post :=
  processItems (_detect_wp_namespace root) post_types post_statuses (findallItems root)

/-- The combined per-item acceptance test (used to state the filter
claims). -/
def itemKeep (ns : NsMap) (pt ps : Option (List String)) (item : XElem) : Bool :=
  typePasses pt (resolvedType ns.wp item) && statusPasses ps (resolvedStatus ns.wp item)

/-- Count of non-overlapping occurrences of `pat`, scanning left to
right (used to state that a block appears exactly twice). -/
def countOccurAux (pat : List Char) : Nat → List Char → Nat
  | 0, _ => 0
  | _ + 1, [] => 0
  | fuel + 1, c :: cs =>
    match dropLit pat (c :: cs) with
    | some r =>
      if pat.isEmpty then countOccurAux pat fuel cs else 1 + countOccurAux pat fuel r
    | none => countOccurAux pat fuel cs

/-- See `countOccurAux`. -/
def countOccur (pat s : List Char) : Nat :=
  countOccurAux pat s.length s

/-- The round-trip scenario input of the spec (claim C3). -/
def c3Input : String := "<h2>Hello</h2><p>World <strong>bold</strong></p>"

/-- An iframe block whose internal content holds markup handled by an
earlier rewrite rule (claim C1's counterexample input). -/
def c1Input : String := "<iframe a=\"b\"><strong>x</strong></iframe>"

/-- A doubly-escaped body: one pass leaves literal markup in the output,
which a second pass rewrites (claim C4's counterexample input). -/
def c4Input : String := "&amp;lt;b&amp;gt;x&amp;lt;/b&amp;gt;"

/-- An iframe element next to ordinary text that already spells the
first placeholder marker (claim C10's input). -/
def c10Input : String := "<iframe s=1>X</iframe> and ___IFRAME_0___ here"

/-- An item whose `content:encoded` element is present but empty: its
`.text` is Python `None` (claim C9's counterexample input). -/
def c9Item : XElem :=
  .node "item" [] none
    [.node ("\x7b" ++ contentNs ++ "\x7dencoded") [] none []]

/-- A document holding `c9Item`. -/
def c9Doc : XElem :=
  .node "rss" [] none [.node "channel" [] none [c9Item]]

/-- A one-item export document with explicit type, status, title and
content (used by witnesses). -/
def exItem : XElem :=
  .node "item" [] none
    [ .node "title" [] (some "First") []
    , .node ("\x7b" ++ defaultWpNs ++ "\x7dpost_type") [] (some "post") []
    , .node ("\x7b" ++ defaultWpNs ++ "\x7dstatus") [] (some "publish") []
    , .node ("\x7b" ++ contentNs ++ "\x7dencoded") [] (some "<p>Hi</p>") [] ]

/-- A document holding `exItem`. -/
def exDoc : XElem :=
  .node "rss" [] none [.node "channel" [] none [exItem]]

/-- The character set of a sanitized slug: lowercase letter, digit,
underscore, or hyphen. -/
def slugChar (c : Char) : Bool :=
  c.isLower || c.isDigit || decide (c = '_') || decide (c = '-')

/-- No two adjacent hyphens anywhere in the list. -/
def noDoubleDash : List Char → Bool
  | [] => true
  | [_] => true
  | a :: b :: rest =>
    !(decide (a = '-') && decide (b = '-')) && noDoubleDash (b :: rest)

/-- Head test used in the preservation analysis: the first character is
none of the characters that can start or continue a pattern of the
pipeline on the preserved-block inputs. -/
def headOK : List Char → Bool
  | [] => true
  | c :: _ =>
    !(decide (c = '<') || decide (c = '&') || decide (c = '\n') || decide (c = ']'))

/-- C3 (counterexample): the Markup Transformer does not map the spec's
round-trip input to `## Hello` + blank line + `World **bold**` — the
heading rule's replacement ends with the heading text and inserts no
newline, so the following paragraph text is appended directly. -/
theorem C3_counterexample :
    html_to_markdown c3Input ≠ "## Hello\n\nWorld **bold**" := by decide

/-- C3 (amended): the Markup Transformer maps
`<h2>Hello</h2><p>World <strong>bold</strong></p>` exactly to
`## HelloWorld **bold**` (no newline after the heading text). -/
theorem C3_roundtrip_actual :
    html_to_markdown c3Input = "## HelloWorld **bold**" := by decide

/-- C1 (counterexample): an iframe block whose internal content holds a
`<strong>` element is not reproduced byte-for-byte — the bold rewrite
runs before the block is extracted, so the output holds the rewritten
block and nowhere the original block text. -/
theorem C1_counterexample :
    html_to_markdown c1Input = "<iframe a=\"b\">**x**</iframe>" ∧
    containsSeq c1Input.data (html_to_markdown c1Input).data = false := by decide

/-- C4 (counterexample): the Markup Transformer is not idempotent up to
whitespace.  On a doubly-escaped body the first pass ends with literal
`<b>x</b>` in its output (the final entity cleanup reintroduces the
angle brackets), and a second pass rewrites it to `**x**`, changing
non-whitespace characters. -/
theorem C4_counterexample :
    html_to_markdown c4Input = "<b>x</b>" ∧
    html_to_markdown (html_to_markdown c4Input) = "**x**" ∧
    (html_to_markdown (html_to_markdown c4Input)).data.filter (fun c => !isPySpace c) ≠
      (html_to_markdown c4Input).data.filter (fun c => !isPySpace c) := by decide

/-- C10: the placeholder markers are plain text and collide with user
text.  On `c10Input` — one iframe plus the literal text
`___IFRAME_0___` — the restoration step replaces both occurrences of
the marker, so the block text appears twice in the output and the
literal marker text is gone. -/
theorem C10_marker_collision :
    countOccur "<iframe s=1>X</iframe>".data (html_to_markdown c10Input).data = 2 ∧
    containsSeq "___IFRAME_0___".data (html_to_markdown c10Input).data = false := by decide

/-- C8 (counterexample): `sanitize_filename` keeps the underscore
(Python's `\w` class includes it), so the result is not limited to
lowercase letters, digits and hyphens as the claim states. -/
theorem C8_counterexample :
    sanitize_filename "A_b" = "a_b" ∧ sanitize_filename "A_b" ≠ "ab" := by decide

/-- C9 (counterexample): a record whose `content:encoded` element is
present but empty carries Python `None` (modelled `none`) as its
content, not the empty string the claim asserts. -/
theorem C9_counterexample :
    (parse_wordpress_xml c9Doc none none).map Post.content = [none] ∧
    (none : Option String) ≠ some "" := by decide

/-- The item loop is the filter of the accepted items mapped through the
record builder (shared by the Export Reader claims). -/
theorem processItems_eq (ns : NsMap) (pt ps : Option (List String)) (l : List XElem) :
    processItems ns pt ps l = (l.filter (itemKeep ns pt ps)).map (mkPost ns) := by
  induction l with
  | nil => rfl
  | cons item rest ih =>
    by_cases h1 : typePasses pt (resolvedType ns.wp item) = true
    · by_cases h2 : statusPasses ps (resolvedStatus ns.wp item) = true
      · simp [processItems, h1, h2, List.filter_cons, itemKeep, ih]
      · simp [processItems, h1, h2, List.filter_cons, itemKeep, ih]
    · simp [processItems, h1, List.filter_cons, itemKeep, ih]

/-- C2: the Export Reader returns exactly the records of the items
accepted by both filters — a record is produced for an item iff its
resolved type passes the type filter (`none` is unrestricted,
`some` set means membership) and its resolved status passes the status
filter — and the result list is the document-order item list filtered
and mapped, so ordering matches document order with no re-sorting. -/
theorem C2_filter_correctness (root : XElem) (pt ps : Option (List String)) :
    parse_wordpress_xml root pt ps =
      ((findallItems root).filter (itemKeep (_detect_wp_namespace root) pt ps)).map
        (mkPost (_detect_wp_namespace root)) := by
  simpa [parse_wordpress_xml] using
    processItems_eq (_detect_wp_namespace root) pt ps (findallItems root)

/-- C7: an empty set as either filter is not an error — the Export
Reader is total on it and returns zero records. -/
theorem C7_empty_filter_yields_nothing (root : XElem) (pt ps : Option (List String)) :
    parse_wordpress_xml root (some []) ps = [] ∧
    parse_wordpress_xml root pt (some []) = [] := by
  constructor
  · rw [parse_wordpress_xml, processItems_eq]
    simp [itemKeep, typePasses]
  · rw [parse_wordpress_xml, processItems_eq]
    simp [itemKeep, statusPasses]

/-- The detector's tree walk is the first-match search of the spec's
description. -/
theorem scanWp_eq (l : List XElem) :
    scanWp l =
      (l.find? (fun e =>
        startsWithL ['{'] e.tag.data && containsSeq wpSub (clarkUri e.tag).data)).map
        (fun e => clarkUri e.tag) := by
  induction l with
  | nil => rfl
  | cons e rest ih =>
    by_cases h1 : startsWithL ['{'] e.tag.data = true
    · by_cases h2 : containsSeq wpSub (clarkUri e.tag).data = true
      · simp [scanWp, List.find?_cons, h1, h2]
      · simp [scanWp, List.find?_cons, h1, h2, ih]
    · simp [scanWp, List.find?_cons, h1, ih]

/-- The version probe is the first-match search over the candidate
list. -/
theorem probeWp_eq (root : XElem) (l : List String) :
    probeWp root l =
      l.find? (fun cand => hasDescendantTag root ("\x7b" ++ cand ++ "\x7dpost_type")) := by
  induction l with
  | nil => rfl
  | cons c rest ih =>
    by_cases h : hasDescendantTag root ("\x7b" ++ c ++ "\x7dpost_type") = true
    · simp [probeWp, List.find?_cons, h]
    · simp [probeWp, List.find?_cons, h, ih]

/-- C5: `_detect_wp_namespace` follows exactly the spec's three-tier
algorithm — adopt the URI of the first element in tree-walk order whose
namespace URI contains the export-family substring; else probe the
three historical version URIs in order for a `post_type` descendant;
else the fixed default — with the content and Dublin-Core URIs fixed
constants regardless. -/
theorem C5_namespace_detection (root : XElem) :
    _detect_wp_namespace root = spec_detect_wp_namespace root := by
  unfold _detect_wp_namespace spec_detect_wp_namespace
  rw [scanWp_eq, probeWp_eq]

/-- The truthy text of an element is never the empty string. -/
theorem truthyText_ne_empty {o : Option XElem} {t : String}
    (h : truthyText o = some t) : t ≠ "" := by
  cases o with
  | none => simp [truthyText] at h
  | some el =>
    cases hx : el.text with
    | none => simp [truthyText, hx] at h
    | some s =>
      simp only [truthyText, hx] at h
      by_cases hs : s = ""
      · simp [hs] at h
      · simp only [if_neg hs, Option.some.injEq] at h
        exact h ▸ hs

/-- C6: every returned record has a non-empty title and a non-empty
type; it is the record of some document item, and when that item's
title element is absent or has no non-empty text the title is the fixed
placeholder `Untitled`, and likewise an absent/empty `post_type` yields
the fixed default `post`. -/
theorem C6_title_type_fallback (root : XElem) (pt ps : Option (List String)) (p : Post)
    (hp : p ∈ parse_wordpress_xml root pt ps) :
    p.title ≠ "" ∧ p.ptype ≠ "" ∧
    ∃ item, item ∈ findallItems root ∧ p = mkPost (_detect_wp_namespace root) item ∧
      (truthyText (findChild item "title") = none → p.title = "Untitled") ∧
      (truthyText (findChild item
          ("\x7b" ++ (_detect_wp_namespace root).wp ++ "\x7dpost_type")) = none →
        p.ptype = "post") := by
  rw [parse_wordpress_xml, processItems_eq] at hp
  rcases List.mem_map.mp hp with ⟨item, hmem, heq⟩
  have hitems : item ∈ findallItems root := List.mem_of_mem_filter hmem
  have htitle : p.title =
      match truthyText (findChild item "title") with
      | some t => t
      | none => "Untitled" := by rw [← heq]; rfl
  have htype : p.ptype =
      match truthyText (findChild item
        ("\x7b" ++ (_detect_wp_namespace root).wp ++ "\x7dpost_type")) with
      | some t => t
      | none => "post" := by rw [← heq]; rfl
  refine ⟨?_, ?_, item, hitems, heq.symm, ?_, ?_⟩
  · rw [htitle]
    cases h : truthyText (findChild item "title") with
    | none => decide
    | some t => simpa using truthyText_ne_empty h
  · rw [htype]
    cases h : truthyText (findChild item
        ("\x7b" ++ (_detect_wp_namespace root).wp ++ "\x7dpost_type")) with
    | none => decide
    | some t => simpa using truthyText_ne_empty h
  · intro h
    rw [htitle, h]
  · intro h
    rw [htype, h]

/-- C6 witness: the theorem applied to the one-item example document. -/
theorem C6_title_type_fallback_witness :
    (mkPost (_detect_wp_namespace exDoc) exItem).title ≠ "" ∧
    (mkPost (_detect_wp_namespace exDoc) exItem).ptype ≠ "" ∧
    ∃ item, item ∈ findallItems exDoc ∧
      mkPost (_detect_wp_namespace exDoc) exItem = mkPost (_detect_wp_namespace exDoc) item ∧
      (truthyText (findChild item "title") = none →
        (mkPost (_detect_wp_namespace exDoc) exItem).title = "Untitled") ∧
      (truthyText (findChild item
          ("\x7b" ++ (_detect_wp_namespace exDoc).wp ++ "\x7dpost_type")) = none →
        (mkPost (_detect_wp_namespace exDoc) exItem).ptype = "post") :=
  C6_title_type_fallback exDoc none none (mkPost (_detect_wp_namespace exDoc) exItem)
    (by decide)

/-- C9 (amended): for every returned record there is a source item such
that `content` is the empty string exactly when the `content:encoded`
child is absent, and is otherwise the element's raw text — which is
Python `None`, not a string, when the element is empty; `date` and
`slug` behave the same way over `post_date` and `post_name`. -/
theorem C9_field_defaults (root : XElem) (pt ps : Option (List String)) (p : Post)
    (hp : p ∈ parse_wordpress_xml root pt ps) :
    ∃ item, item ∈ findallItems root ∧ p = mkPost (_detect_wp_namespace root) item ∧
      (findChild item ("\x7b" ++ (_detect_wp_namespace root).content ++ "\x7dencoded") = none →
        p.content = some "") ∧
      (∀ el, findChild item ("\x7b" ++ (_detect_wp_namespace root).content ++ "\x7dencoded") = some el →
        p.content = el.text) ∧
      (findChild item ("\x7b" ++ (_detect_wp_namespace root).wp ++ "\x7dpost_date") = none →
        p.date = some "") ∧
      (∀ el, findChild item ("\x7b" ++ (_detect_wp_namespace root).wp ++ "\x7dpost_date") = some el →
        p.date = el.text) ∧
      (findChild item ("\x7b" ++ (_detect_wp_namespace root).wp ++ "\x7dpost_name") = none →
        p.slug = some "") ∧
      (∀ el, findChild item ("\x7b" ++ (_detect_wp_namespace root).wp ++ "\x7dpost_name") = some el →
        p.slug = el.text) := by
  rw [parse_wordpress_xml, processItems_eq] at hp
  rcases List.mem_map.mp hp with ⟨item, hmem, heq⟩
  have hitems : item ∈ findallItems root := List.mem_of_mem_filter hmem
  have hcon : p.content =
      rawText (findChild item ("\x7b" ++ (_detect_wp_namespace root).content ++ "\x7dencoded")) := by
    rw [← heq]; rfl
  have hdate : p.date =
      rawText (findChild item ("\x7b" ++ (_detect_wp_namespace root).wp ++ "\x7dpost_date")) := by
    rw [← heq]; rfl
  have hslug : p.slug =
      rawText (findChild item ("\x7b" ++ (_detect_wp_namespace root).wp ++ "\x7dpost_name")) := by
    rw [← heq]; rfl
  refine ⟨item, hitems, heq.symm, ?_, ?_, ?_, ?_, ?_, ?_⟩
  · intro h; rw [hcon, h]; rfl
  · intro el h; rw [hcon, h]; rfl
  · intro h; rw [hdate, h]; rfl
  · intro el h; rw [hdate, h]; rfl
  · intro h; rw [hslug, h]; rfl
  · intro el h; rw [hslug, h]; rfl

/-- Lower-casing never produces an ASCII uppercase letter. -/
theorem isUpper_toLower (c : Char) : (c.toLower).isUpper = false := by
  unfold Char.toLower
  by_cases h : c.toNat ≥ 65 ∧ c.toNat ≤ 90
  · rw [if_pos h]
    have hv : Nat.isValidChar (c.toNat + 32) := by
      left; omega
    unfold Char.ofNat
    rw [dif_pos hv]
    unfold Char.ofNatAux Char.isUpper
    simp only [ge_iff_le, UInt32.le_def, BitVec.le_def, BitVec.toNat_ofNatLt]
    have h90 : (90 : UInt32).toBitVec.toNat = 90 := by decide
    simp only [Bool.and_eq_false_iff]
    right
    simp only [decide_eq_false_iff_not]
    omega
  · rw [if_neg h]
    unfold Char.isUpper
    have h65 : (65 : UInt32).toBitVec.toNat = 65 := by decide
    have h90 : (90 : UInt32).toBitVec.toNat = 90 := by decide
    have hc : c.toNat = c.val.toBitVec.toNat := rfl
    simp only [ge_iff_le, UInt32.le_def, BitVec.le_def, Bool.and_eq_false_iff,
      decide_eq_false_iff_not]
    omega

/-- `noDoubleDash` passes to the tail. -/
theorem noDoubleDash_tail {a : Char} {l : List Char}
    (h : noDoubleDash (a :: l) = true) : noDoubleDash l = true := by
  cases l with
  | nil => rfl
  | cons b rest =>
    simp only [noDoubleDash, Bool.and_eq_true] at h
    exact h.2

/-- `noDoubleDash` passes to any suffix. -/
theorem noDoubleDash_suffix_append {t l : List Char}
    (h : noDoubleDash (t ++ l) = true) : noDoubleDash l = true := by
  induction t with
  | nil => exact h
  | cons a t ih => exact ih (noDoubleDash_tail h)

/-- `noDoubleDash` passes to any prefix. -/
theorem noDoubleDash_prefix_append {l t : List Char}
    (h : noDoubleDash (l ++ t) = true) : noDoubleDash l = true := by
  induction l with
  | nil => rfl
  | cons a l ih =>
    cases l with
    | nil => rfl
    | cons b rest =>
      simp only [List.cons_append, noDoubleDash, Bool.and_eq_true] at h ⊢
      exact ⟨h.1, ih h.2⟩

/-- The head surviving a `dropWhile` fails the predicate. -/
theorem head_dropWhile_false {p : Char → Bool} {l : List Char} {a : Char}
    (h : (l.dropWhile p).head? = some a) : p a = false := by
  induction l with
  | nil => simp [List.dropWhile] at h
  | cons c cs ih =>
    by_cases hc : p c = true
    · rw [List.dropWhile_cons, if_pos hc] at h
      exact ih h
    · rw [List.dropWhile_cons, if_neg hc] at h
      simp only [List.head?_cons, Option.some.injEq] at h
      subst h
      exact Bool.eq_false_iff.mpr hc

/-- Membership survives `dropWhile`. -/
theorem mem_of_mem_dropWhile {p : Char → Bool} {l : List Char} {c : Char}
    (h : c ∈ l.dropWhile p) : c ∈ l := by
  induction l with
  | nil => simp [List.dropWhile] at h
  | cons a rest ih =>
    rw [List.dropWhile_cons] at h
    by_cases ha : p a = true
    · rw [if_pos ha] at h
      exact List.mem_cons_of_mem a (ih h)
    · rw [if_neg ha] at h
      exact h

/-- After a run was just collapsed, the next emitted character is not a
hyphen. -/
theorem collapseAux_head_true (l : List Char) :
    (collapseAux true l).head? ≠ some '-' := by
  induction l with
  | nil => simp [collapseAux]
  | cons c rest ih =>
    by_cases hc : (isPySpace c || decide (c = '-')) = true
    · simpa [collapseAux, hc] using ih
    · rcases Bool.or_eq_false_iff.mp (Bool.eq_false_iff.mpr hc) with ⟨hsp, hdash⟩
      have hcd : ¬ c = '-' := of_decide_eq_false hdash
      simp [collapseAux, hsp, hdash, hcd]

/-- The collapse scanner never emits two adjacent hyphens. -/
theorem collapseAux_noDD (l : List Char) : ∀ b, noDoubleDash (collapseAux b l) = true := by
  induction l with
  | nil => intro b; rfl
  | cons c rest ih =>
    intro b
    by_cases hc : (isPySpace c || decide (c = '-')) = true
    · cases b with
      | true => simpa [collapseAux, hc] using ih true
      | false =>
        simp only [collapseAux, hc, if_true, if_false]
        cases hX : collapseAux true rest with
        | nil => rfl
        | cons x xs =>
          have hx : ¬ x = '-' := by
            have := collapseAux_head_true rest
            rw [hX] at this
            simpa using this
          have hnd := ih true
          rw [hX] at hnd
          simp only [noDoubleDash, Bool.and_eq_true, Bool.not_eq_true']
          exact ⟨by simp [hx], hnd⟩
    · have hcd : ¬ c = '-' := by
        rcases Bool.or_eq_false_iff.mp (Bool.eq_false_iff.mpr hc) with ⟨_, h2⟩
        exact of_decide_eq_false h2
      simp only [collapseAux, hc, if_false]
      cases hX : collapseAux false rest with
      | nil => rfl
      | cons x xs =>
        have hnd := ih false
        rw [hX] at hnd
        simp only [noDoubleDash, Bool.and_eq_true, Bool.not_eq_true']
        exact ⟨by simp [hcd], hnd⟩

/-- Every character the collapse scanner emits is a hyphen or an input
character outside the collapsed class. -/
theorem collapseAux_mem {l : List Char} {c : Char} :
    ∀ {b}, c ∈ collapseAux b l →
      c = '-' ∨ (c ∈ l ∧ (isPySpace c || decide (c = '-')) = false) := by
  induction l with
  | nil => intro b h; simp [collapseAux] at h
  | cons a rest ih =>
    intro b h
    by_cases ha : (isPySpace a || decide (a = '-')) = true
    · cases b with
      | true =>
        rw [collapseAux, if_pos ha, if_pos rfl] at h
        rcases ih h with h1 | ⟨h2, h3⟩
        · exact Or.inl h1
        · exact Or.inr ⟨List.mem_cons_of_mem a h2, h3⟩
      | false =>
        rw [collapseAux, if_pos ha, if_neg (by simp)] at h
        rcases List.mem_cons.mp h with h1 | h1
        · exact Or.inl h1
        · rcases ih h1 with h2 | ⟨h3, h4⟩
          · exact Or.inl h2
          · exact Or.inr ⟨List.mem_cons_of_mem a h3, h4⟩
    · rw [collapseAux, if_neg ha] at h
      rcases List.mem_cons.mp h with h1 | h1
      · subst h1
        exact Or.inr ⟨List.mem_cons_self c rest, Bool.eq_false_iff.mpr ha⟩
      · rcases ih h1 with h2 | ⟨h3, h4⟩
        · exact Or.inl h2
        · exact Or.inr ⟨List.mem_cons_of_mem a h3, h4⟩

/-- C8 (amended): sanitized slugs consist solely of lowercase letters,
digits, underscores and hyphens, with no two adjacent hyphens and no
hyphen at either end — the underscore being kept because Python's `\w`
class contains it. -/
theorem C8_slug_characterization (t : String) :
    (sanitize_filename t).data.all slugChar = true ∧
    noDoubleDash (sanitize_filename t).data = true ∧
    (sanitize_filename t).data.head? ≠ some '-' ∧
    (sanitize_filename t).data.getLast? ≠ some '-' := by
  have hdata : (sanitize_filename t).data =
      ((((collapseAux false ((t.data.map Char.toLower).filter
          (fun c => isWordChar c || isPySpace c || decide (c = '-')))).dropWhile
          (fun c => decide (c = '-'))).reverse.dropWhile
          (fun c => decide (c = '-'))).reverse) := rfl
  set k := (t.data.map Char.toLower).filter
    (fun c => isWordChar c || isPySpace c || decide (c = '-')) with hk
  set x := collapseAux false k with hx
  set d : Char → Bool := fun c => decide (c = '-') with hd
  set rdw := x.dropWhile d with hrdw
  have hpre : ((rdw.reverse.dropWhile d).reverse) <+: rdw := by
    have hsfx : rdw.reverse.dropWhile d <:+ rdw.reverse :=
      ⟨rdw.reverse.takeWhile d, List.takeWhile_append_dropWhile d rdw.reverse⟩
    have := List.reverse_prefix.mpr hsfx
    simpa using this
  have hxnd : noDoubleDash x = true := collapseAux_noDD k false
  have hrdwnd : noDoubleDash rdw = true := by
    have : x.takeWhile d ++ rdw = x := List.takeWhile_append_dropWhile d x
    exact noDoubleDash_suffix_append (this ▸ hxnd)
  rcases hpre with ⟨tl, htl⟩
  refine ⟨?_, ?_, ?_, ?_⟩
  · rw [List.all_eq_true]
    intro c hc
    rw [hdata] at hc
    have hcx : c ∈ x := by
      have h1 : c ∈ rdw := by
        have : c ∈ (rdw.reverse.dropWhile d).reverse := hc
        rw [List.mem_reverse] at this
        have := mem_of_mem_dropWhile this
        rwa [List.mem_reverse] at this
      exact mem_of_mem_dropWhile h1
    rcases collapseAux_mem hcx with h1 | ⟨h2, h3⟩
    · subst h1; simp [slugChar]
    · rcases List.mem_filter.mp h2 with ⟨hmem, hkeep⟩
      rcases List.mem_map.mp hmem with ⟨y, _, hy⟩
      have hup : c.isUpper = false := hy ▸ isUpper_toLower y
      rcases Bool.or_eq_false_iff.mp h3 with ⟨hsp, hdash⟩
      have hword : isWordChar c = true := by
        rcases Bool.or_eq_true _ _ |>.mp hkeep with h | h
        · rcases Bool.or_eq_true _ _ |>.mp h with h' | h'
          · exact h'
          · rw [h'] at hsp; cases hsp
        · rw [h] at hdash; cases hdash
      rcases Bool.or_eq_true _ _ |>.mp hword with halnum | hund
      · rcases Bool.or_eq_true _ _ |>.mp halnum with halpha | hdig
        · have : c.isLower = true := by
            rcases Bool.or_eq_true _ _ |>.mp halpha with hu | hl
            · rw [hup] at hu; cases hu
            · exact hl
          simp [slugChar, this]
        · simp [slugChar, hdig]
      · simp [slugChar, hund]
  · rw [hdata]
    exact noDoubleDash_prefix_append (htl ▸ hrdwnd)
  · rw [hdata]
    cases hr : (rdw.reverse.dropWhile d).reverse with
    | nil => simp
    | cons c r =>
      have hhead : rdw.head? = some c := by
        rw [← htl, hr]; rfl
      have := head_dropWhile_false (p := d) (l := x) (by rw [← hrdw]; exact hhead)
      simp only [hd, decide_eq_false_iff_not] at this
      simp [this]
  · rw [hdata]
    rw [List.getLast?_reverse]
    intro hlast
    have := head_dropWhile_false (p := d) (l := rdw.reverse) hlast
    simp [hd] at this

/-- A matcher failing on every nonempty suffix makes the `re.sub` loop
the identity (for any fuel). -/
theorem runSubAux_id {m : Matcher} : ∀ (fuel : Nat) (s : List Char),
    (∀ t, t ≠ [] → t <:+ s → m t = none) → runSubAux m fuel s = s := by
  intro fuel
  induction fuel with
  | zero => intro s _; rfl
  | succ n ih =>
    intro s h
    cases s with
    | nil => rfl
    | cons c cs =>
      rw [runSubAux, h (c :: cs) (by simp) (List.suffix_refl _),
        ih cs (fun t ht hsfx => h t ht (hsfx.trans (List.suffix_cons c cs)))]

/-- `runSub` version of `runSubAux_id`. -/
theorem runSub_id {m : Matcher} {s : List Char}
    (h : ∀ t, t ≠ [] → t <:+ s → m t = none) : runSub m s = s :=
  runSubAux_id s.length s h

/-- `dropLit` fails when the heads differ. -/
theorem dropLit_ne_head {p c : Char} {ps cs : List Char} (h : p ≠ c) :
    dropLit (p :: ps) (c :: cs) = none := by
  simp [dropLit, h]

/-- A suffix of an append is a suffix of the right part, or a nonempty
suffix of the left part glued to the whole right part. -/
theorem suffix_append_cases {t l₁ l₂ : List Char} (h : t <:+ l₁ ++ l₂) :
    t <:+ l₂ ∨ ∃ t₁, t₁ <:+ l₁ ∧ t₁ ≠ [] ∧ t = t₁ ++ l₂ := by
  induction l₁ with
  | nil => exact Or.inl h
  | cons a l₁ ih =>
    rw [List.cons_append, List.suffix_cons_iff] at h
    rcases h with h | h
    · exact Or.inr ⟨a :: l₁, List.suffix_refl _, by simp, h⟩
    · rcases ih h with h1 | ⟨t₁, hs, hne, heq⟩
      · exact Or.inl h1
      · exact Or.inr ⟨t₁, hs.trans (List.suffix_cons a l₁), hne, heq⟩

/-- `splitAtFirst` misses exactly when the literal starts at no
suffix. -/
theorem splitAtFirst_none_iff (pat : List Char) : ∀ (s : List Char),
    splitAtFirst pat s = none ↔ ∀ t, t <:+ s → dropLit pat t = none := by
  intro s
  induction s with
  | nil =>
    constructor
    · intro h t ht
      rw [List.suffix_nil.mp ht]
      rw [splitAtFirst] at h
      cases hd : dropLit pat [] with
      | none => rfl
      | some r => rw [hd] at h; cases h
    · intro h
      rw [splitAtFirst]
      rw [h [] (List.suffix_refl _)]
  | cons c cs ih =>
    constructor
    · intro h t ht
      rw [splitAtFirst] at h
      cases hd : dropLit pat (c :: cs) with
      | some r => rw [hd] at h; cases h
      | none =>
        rw [hd] at h
        rcases List.suffix_cons_iff.mp ht with h1 | h1
        · rw [h1]; exact hd
        · cases hrec : splitAtFirst pat cs with
          | some pr => rw [hrec] at h; cases h
          | none => exact (ih.mp hrec) t h1
    · intro h
      rw [splitAtFirst]
      rw [h (c :: cs) (List.suffix_refl _)]
      rw [ih.mpr (fun t ht => h t (ht.trans (List.suffix_cons c cs)))]

/-- `containsSeq` false gives `dropLit` failure at every suffix. -/
theorem dropLit_none_of_not_contains {pat s : List Char}
    (h : containsSeq pat s = false) : ∀ t, t <:+ s → dropLit pat t = none := by
  have : splitAtFirst pat s = none := by
    unfold containsSeq at h
    cases hs : splitAtFirst pat s with
    | none => rfl
    | some r => rw [hs] at h; cases h
  exact (splitAtFirst_none_iff pat s).mp this

/-- A never-matching literal makes `str.replace` the identity (any
fuel). -/
theorem replaceAllAux_id {old new : List Char} : ∀ (fuel : Nat) (s : List Char),
    (∀ t, t <:+ s → dropLit old t = none) → replaceAllAux old new fuel s = s := by
  intro fuel
  induction fuel with
  | zero => intro s _; rfl
  | succ n ih =>
    intro s h
    cases s with
    | nil => rfl
    | cons c cs =>
      rw [replaceAllAux, h (c :: cs) (List.suffix_refl _),
        ih cs (fun t ht => h t (ht.trans (List.suffix_cons c cs)))]

/-- `replaceAll` version of `replaceAllAux_id`. -/
theorem replaceAll_id {old new s : List Char}
    (h : ∀ t, t <:+ s → dropLit old t = none) : replaceAll old new s = s :=
  replaceAllAux_id s.length s h

/-- The value packed by a valid `Char.ofNat` unpacks to itself. -/
theorem toNat_ofNat_valid {n : Nat} (h : n.isValidChar) : (Char.ofNat n).toNat = n := by
  unfold Char.ofNat
  rw [dif_pos h]
  rfl

/-- Lower-casing can only reach a non-letter character from itself. -/
theorem eq_of_toLower_eq_low {c d : Char} (hd : d.toNat < 65) (h : c.toLower = d) :
    c = d := by
  unfold Char.toLower at h
  by_cases hc : c.toNat ≥ 65 ∧ c.toNat ≤ 90
  · rw [if_pos hc] at h
    have hv : Nat.isValidChar (c.toNat + 32) := by left; omega
    have := toNat_ofNat_valid hv
    rw [h] at this
    omega
  · rwa [if_neg hc] at h

/-- A tag matcher whose opening literal starts with `<` fails off a
`<`. -/
theorem tagMatcher_none_head {op cl : List Char} {b : List Char → List Char}
    {c : Char} {cs : List Char} (hop : op.head? = some '<') (h : c ≠ '<') :
    tagMatcher op cl b (c :: cs) = none := by
  cases op with
  | nil => cases hop
  | cons p ops =>
    simp only [List.head?_cons, Option.some.injEq] at hop
    subst hop
    simp [tagMatcher, dropLit_ne_head (fun e => h e.symm)]

/-- Heading matchers fail off a `<`. -/
theorem hMatcher_none_head {n : Nat} {c : Char} {cs : List Char} (h : c ≠ '<') :
    hMatcher n (c :: cs) = none :=
  tagMatcher_none_head rfl h

/-- The link matcher fails off a `<`. -/
theorem aMatcher_none_head {c : Char} {cs : List Char} (h : c ≠ '<') :
    aMatcher (c :: cs) = none := by
  have hd : dropLit "<a".data (c :: cs) = none := by
    rw [show "<a".data = ['<', 'a'] from rfl]
    exact dropLit_ne_head (fun e => h e.symm)
  simp [aMatcher, hd]

/-- The first image matcher fails off a `<`. -/
theorem img1Matcher_none_head {c : Char} {cs : List Char} (h : c ≠ '<') :
    img1Matcher (c :: cs) = none := by
  have hd : dropLit "<img".data (c :: cs) = none := by
    rw [show "<img".data = ['<', 'i', 'm', 'g'] from rfl]
    exact dropLit_ne_head (fun e => h e.symm)
  simp [img1Matcher, hd]

/-- The second image matcher fails off a `<`. -/
theorem img2Matcher_none_head {c : Char} {cs : List Char} (h : c ≠ '<') :
    img2Matcher (c :: cs) = none := by
  have hd : dropLit "<img".data (c :: cs) = none := by
    rw [show "<img".data = ['<', 'i', 'm', 'g'] from rfl]
    exact dropLit_ne_head (fun e => h e.symm)
  simp [img2Matcher, hd]

/-- The line-break matcher fails off a `<`. -/
theorem brMatcher_none_head {c : Char} {cs : List Char} (h : c ≠ '<') :
    brMatcher (c :: cs) = none := by
  have hd : dropLit "<br".data (c :: cs) = none := by
    rw [show "<br".data = ['<', 'b', 'r'] from rfl]
    exact dropLit_ne_head (fun e => h e.symm)
  simp [brMatcher, hd]

/-- The tag-stripping matcher fails off a `<`. -/
theorem stripTagMatcher_none_head {c : Char} {cs : List Char} (h : c ≠ '<') :
    stripTagMatcher (c :: cs) = none := by
  simp [stripTagMatcher, h]

/-- The entity matcher fails off a `&`. -/
theorem unescMatch_none_head {c : Char} {cs : List Char} (h : c ≠ '&') :
    unescMatch (c :: cs) = none := by
  simp [unescMatch, h]

/-- The newline-collapse matcher fails where no newline triple
starts. -/
theorem nlMatcher_none {t : List Char} (h : dropLit ['\n', '\n', '\n'] t = none) :
    nlMatcher t = none := by
  simp [nlMatcher, h]

/-- Case-insensitive opener comparison against `<` fails off a `<`. -/
theorem dropLitCI_lt_none {nameLit : List Char} {c : Char} {cs : List Char} (h : c ≠ '<') :
    dropLitCI ('<' :: nameLit) (c :: cs) = none := by
  have hne2 : ¬ ('<' = c.toLower) := by
    intro he
    exact h (eq_of_toLower_eq_low (by decide) he.symm)
  have hne : ¬ ('<'.toLower = c.toLower) := by
    have h1 : '<'.toLower = '<' := by decide
    rw [h1]
    exact hne2
  simp [dropLitCI, hne, hne2]

/-- The embed matcher fails off a `<`. -/
theorem embedMatch_none_head {nameLit : List Char} {c : Char} {cs : List Char}
    (h : c ≠ '<') : embedMatch nameLit (c :: cs) = none := by
  simp [embedMatch, dropLitCI_lt_none h]

/-- An embed matcher failing on every nonempty suffix makes extraction
collect nothing and keep the text (for any fuel or index). -/
theorem extractAux_id {base nameLit : List Char} : ∀ (fuel k : Nat) (s : List Char),
    (∀ t, t ≠ [] → t <:+ s → embedMatch nameLit t = none) →
    extractAux base nameLit fuel k s = ([], s) := by
  intro fuel
  induction fuel with
  | zero => intro k s _; rfl
  | succ n ih =>
    intro k s h
    cases s with
    | nil => rfl
    | cons c cs =>
      rw [extractAux, h (c :: cs) (by simp) (List.suffix_refl _)]
      simp only []
      rw [ih k cs (fun t ht hsfx => h t ht (hsfx.trans (List.suffix_cons c cs)))]

/-- `extract` version of `extractAux_id`. -/
theorem extract_id {base nameLit s : List Char}
    (h : ∀ t, t ≠ [] → t <:+ s → embedMatch nameLit t = none) :
    extract base nameLit s = ([], s) :=
  extractAux_id s.length 0 s h

/-- Restoring an empty table leaves the text alone. -/
theorem restoreBlocks_nil {base content : List Char} :
    restoreBlocks base [] content = content := rfl

/-- `dropWhile` is the identity when the head fails the predicate. -/
theorem dropWhile_eq_self_head {p : Char → Bool} {l : List Char}
    (h : ∀ c, l.head? = some c → p c = false) : l.dropWhile p = l := by
  cases l with
  | nil => rfl
  | cons c cs =>
    have := h c rfl
    rw [List.dropWhile_cons, if_neg (by simp [this])]

/-- `str.strip()` is the identity when neither end is whitespace. -/
theorem pyStrip_id {s : List Char}
    (h1 : ∀ c, s.head? = some c → isPySpace c = false)
    (h2 : ∀ c, s.getLast? = some c → isPySpace c = false) : pyStrip s = s := by
  unfold pyStrip
  rw [dropWhile_eq_self_head h1,
    dropWhile_eq_self_head (fun c hc => h2 c (by rwa [List.head?_reverse] at hc))]
  exact List.reverse_reverse s

/-- C4 (amended): the Markup Transformer is the identity on any input
containing no `<` and no `&`, no CDATA close marker, no newline triple,
and no whitespace at either end — the shape of a first-pass output
whose entity cleanup reintroduced nothing.  (The counterexample shows
idempotence fails in general: the final un-escaping can put literal
markup back into the output.) -/
theorem C4_second_pass_identity (s : String)
    (h1 : ∀ c ∈ s.data, c ≠ '<' ∧ c ≠ '&')
    (h2 : containsSeq "]]>".data s.data = false)
    (h3 : containsSeq ['\n', '\n', '\n'] s.data = false)
    (h4 : ∀ c, s.data.head? = some c → isPySpace c = false)
    (h5 : ∀ c, s.data.getLast? = some c → isPySpace c = false) :
    html_to_markdown s = s := by
  have hmem : ∀ t c cs, t = c :: cs → t <:+ s.data → c ≠ '<' ∧ c ≠ '&' := by
    intro t c cs ht hsfx
    subst ht
    exact h1 c (hsfx.sublist.mem (List.mem_cons_self c cs))
  have hlt : ∀ t, t ≠ [] → t <:+ s.data → ∃ c cs, t = c :: cs ∧ c ≠ '<' ∧ c ≠ '&' := by
    intro t ht hsfx
    cases t with
    | nil => cases ht rfl
    | cons c cs => exact ⟨c, cs, rfl, hmem (c :: cs) c cs rfl hsfx⟩
  have hmain : htmlToMarkdownL s.data = s.data := by
    by_cases hemp : s.data.isEmpty
    · rw [htmlToMarkdownL, if_pos hemp]
      exact (List.isEmpty_iff.mp hemp).symm
    · rw [htmlToMarkdownL, if_neg hemp]
      have e0 : runSub unescMatch s.data = s.data := by
        apply runSub_id
        intro t ht hsfx
        rcases hlt t ht hsfx with ⟨c, cs, rfl, _, hamp⟩
        exact unescMatch_none_head hamp
      have e1 : replaceAll "<![CDATA[".data [] s.data = s.data := by
        apply replaceAll_id
        intro t hsfx
        cases t with
        | nil => rfl
        | cons c cs =>
          rcases hlt (c :: cs) (by simp) hsfx with ⟨c2, cs2, heq, hlt2, _⟩
          cases heq
          rw [show ("<![CDATA[".data) = '<' :: "![CDATA[".data from rfl]
          exact dropLit_ne_head (fun e => hlt2 e.symm)
      have e2 : replaceAll "]]>".data [] s.data = s.data :=
        replaceAll_id (dropLit_none_of_not_contains h2)
      have ehead : ∀ (n : Nat), runSub (hMatcher n) s.data = s.data := by
        intro n
        apply runSub_id
        intro t ht hsfx
        rcases hlt t ht hsfx with ⟨c, cs, rfl, hlt2, _⟩
        exact hMatcher_none_head hlt2
      have e3 : headingPass s.data = s.data := by
        simp only [headingPass, List.foldl_cons, List.foldl_nil]
        rw [ehead 1, ehead 2, ehead 3, ehead 4, ehead 5, ehead 6]
      have etag : ∀ (op cl : List Char) (b : List Char → List Char),
          op.head? = some '<' → runSub (tagMatcher op cl b) s.data = s.data := by
        intro op cl b hop
        apply runSub_id
        intro t ht hsfx
        rcases hlt t ht hsfx with ⟨c, cs, rfl, hlt2, _⟩
        exact tagMatcher_none_head hop hlt2
      have ea : runSub aMatcher s.data = s.data := by
        apply runSub_id
        intro t ht hsfx
        rcases hlt t ht hsfx with ⟨c, cs, rfl, hlt2, _⟩
        exact aMatcher_none_head hlt2
      have ei1 : runSub img1Matcher s.data = s.data := by
        apply runSub_id
        intro t ht hsfx
        rcases hlt t ht hsfx with ⟨c, cs, rfl, hlt2, _⟩
        exact img1Matcher_none_head hlt2
      have ei2 : runSub img2Matcher s.data = s.data := by
        apply runSub_id
        intro t ht hsfx
        rcases hlt t ht hsfx with ⟨c, cs, rfl, hlt2, _⟩
        exact img2Matcher_none_head hlt2
      have ebr : runSub brMatcher s.data = s.data := by
        apply runSub_id
        intro t ht hsfx
        rcases hlt t ht hsfx with ⟨c, cs, rfl, hlt2, _⟩
        exact brMatcher_none_head hlt2
      have eext : ∀ base nameLit, extract base nameLit s.data = ([], s.data) := by
        intro base nameLit
        apply extract_id
        intro t ht hsfx
        rcases hlt t ht hsfx with ⟨c, cs, rfl, hlt2, _⟩
        exact embedMatch_none_head hlt2
      have estrip : runSub stripTagMatcher s.data = s.data := by
        apply runSub_id
        intro t ht hsfx
        rcases hlt t ht hsfx with ⟨c, cs, rfl, hlt2, _⟩
        exact stripTagMatcher_none_head hlt2
      have enl : runSub nlMatcher s.data = s.data := by
        apply runSub_id
        intro t _ hsfx
        exact nlMatcher_none (dropLit_none_of_not_contains h3 t hsfx)
      have eent : ∀ (old : List Char) (new : List Char), old.head? = some '&' →
          replaceAll old new s.data = s.data := by
        intro old new hold
        apply replaceAll_id
        intro t hsfx
        cases t with
        | nil =>
          cases old with
          | nil => cases hold
          | cons o os => rfl
        | cons c cs =>
          rcases hlt (c :: cs) (by simp) hsfx with ⟨c2, cs2, heq, _, hamp⟩
          cases heq
          cases old with
          | nil => cases hold
          | cons o os =>
            simp only [List.head?_cons, Option.some.injEq] at hold
            subst hold
            exact dropLit_ne_head (fun e => hamp e.symm)
      have ebq := etag "<blockquote".data "</blockquote>".data bqBuild (by decide)
      have eol := etag "<ol".data "</ol>".data olBuild (by decide)
      have eul := etag "<ul".data "</ul>".data ulBuild (by decide)
      have est := etag "<strong".data "</strong>".data
        (fun g => '*' :: '*' :: g ++ "**".data) (by decide)
      have ebd := etag "<b".data "</b>".data
        (fun g => '*' :: '*' :: g ++ "**".data) (by decide)
      have eem := etag "<em".data "</em>".data (fun g => '*' :: g ++ ['*']) (by decide)
      have eit := etag "<i".data "</i>".data (fun g => '*' :: g ++ ['*']) (by decide)
      have epp := etag "<p".data "</p>".data (fun g => g ++ ['\n', '\n']) (by decide)
      have en1 := eent "&nbsp;".data [' '] (by decide)
      have en2 := eent "&amp;".data ['&'] (by decide)
      have en3 := eent "&quot;".data ['"'] (by decide)
      have en4 := eent "&lt;".data ['<'] (by decide)
      have en5 := eent "&gt;".data ['>'] (by decide)
      simp only [e0, e1, e2, e3, ebq, eol, eul, est, ebd, eem, eit, ea, ei1, ei2, ebr,
        epp, eext, estrip, enl, en1, en2, en3, en4, en5, restoreBlocks_nil]
      exact pyStrip_id h4 h5
  show String.mk (htmlToMarkdownL s.data) = s
  rw [hmain]

/-- `dropLit` of a list from itself leaves nothing. -/
theorem dropLit_self : ∀ (l : List Char), dropLit l l = some []
  | [] => rfl
  | c :: cs => by rw [dropLit, if_pos rfl]; exact dropLit_self cs

/-- Replacing a string that is exactly the pattern yields exactly the
replacement. -/
theorem replaceAll_self {old new : List Char} (h : old ≠ []) :
    replaceAll old new old = new := by
  obtain ⟨c, cs, rfl⟩ := List.exists_cons_of_ne_nil h
  show replaceAllAux (c :: cs) new (c :: cs).length (c :: cs) = new
  rw [List.length_cons, replaceAllAux, dropLit_self]
  have hnil : replaceAllAux (c :: cs) new cs.length [] = [] := by
    cases cs.length with
    | zero => rfl
    | succ n => rfl
  simp [hnil]

/-- `dropLit` fails on an append when the pattern and the prefix part
disagree before either runs out. -/
theorem dropLit_append_none {pat : List Char} : ∀ {t₁ : List Char} (r : List Char),
    ¬ t₁ <+: pat → ¬ pat <+: t₁ → dropLit pat (t₁ ++ r) = none := by
  induction pat with
  | nil =>
    intro t₁ r h1 h2
    exact absurd (List.nil_prefix) h2
  | cons p ps ih =>
    intro t₁ r h1 h2
    cases t₁ with
    | nil => exact absurd (List.nil_prefix) h1
    | cons c cs =>
      by_cases hpc : p = c
      · subst hpc
        rw [List.cons_append, dropLit, if_pos rfl]
        exact ih r (fun h => h1 (List.cons_prefix_cons.mpr ⟨rfl, h⟩))
          (fun h => h2 (List.cons_prefix_cons.mpr ⟨rfl, h⟩))
      · rw [List.cons_append]
        exact dropLit_ne_head hpc

/-- The lazy case-insensitive search walks over a `<`-free prefix and
stops at the closing literal placed right after it. -/
theorem splitAtFirstCI_glue {patRest : List Char} : ∀ {x y tk : List Char},
    (∀ c ∈ x, c ≠ '<') → dropLitCI ('<' :: patRest) y = some (tk, []) →
    splitAtFirstCI ('<' :: patRest) (x ++ y) = some (x, tk, []) := by
  intro x
  induction x with
  | nil =>
    intro y tk _ hy
    cases y with
    | nil => cases hy
    | cons c cs =>
      show splitAtFirstCI _ (c :: cs) = _
      rw [splitAtFirstCI, hy]
  | cons a x ih =>
    intro y tk hx hy
    rw [List.cons_append, splitAtFirstCI,
      dropLitCI_lt_none (hx a (List.mem_cons_self a x)),
      ih (fun c hc => hx c (List.mem_cons_of_mem a hc)) hy]

/-- Extraction of a text that is in its entirety one embed match:
a one-entry table and the bare first marker. -/
theorem extract_whole {base nameLit s blk : List Char}
    (h : embedMatch nameLit s = some (blk, [])) (hs : s ≠ []) :
    extract base nameLit s = ([blk], markerFor base 0) := by
  obtain ⟨c, cs, rfl⟩ := List.exists_cons_of_ne_nil hs
  show extractAux base nameLit (c :: cs).length 0 (c :: cs) = _
  rw [List.length_cons, extractAux, h]
  have hnil : extractAux base nameLit cs.length 1 [] = ([], []) := by
    cases hl : cs.length with
    | zero => rfl
    | succ n => rfl
  simp [hnil]

/-- `str.strip()` of a blank-line-wrapped block whose ends are not
whitespace gives back the block. -/
theorem pyStrip_wrap {m : List Char} {a b : Char}
    (hh : m.head? = some a) (ha : isPySpace a = false)
    (hl : m.getLast? = some b) (hbb : isPySpace b = false) :
    pyStrip ('\n' :: '\n' :: (m ++ ['\n', '\n'])) = m := by
  unfold pyStrip
  have hstep : ('\n' :: '\n' :: (m ++ ['\n', '\n'])).dropWhile isPySpace =
      (m ++ ['\n', '\n']).dropWhile isPySpace := by
    rw [List.dropWhile_cons, if_pos (by decide), List.dropWhile_cons, if_pos (by decide)]
  rw [hstep]
  have hm : (m ++ ['\n', '\n']).dropWhile isPySpace = m ++ ['\n', '\n'] := by
    apply dropWhile_eq_self_head
    intro c hc
    cases m with
    | nil => cases hh
    | cons x xs =>
      simp only [List.cons_append, List.head?_cons, Option.some.injEq] at hc hh
      rw [← hc, hh]
      exact ha
  rw [hm]
  have hrev : (m ++ ['\n', '\n']).reverse = '\n' :: '\n' :: m.reverse := by
    simp
  rw [hrev]
  have hstep2 : ('\n' :: '\n' :: m.reverse).dropWhile isPySpace =
      m.reverse.dropWhile isPySpace := by
    rw [List.dropWhile_cons, if_pos (by decide), List.dropWhile_cons, if_pos (by decide)]
  rw [hstep2]
  have hmr : m.reverse.dropWhile isPySpace = m.reverse := by
    apply dropWhile_eq_self_head
    intro c hc
    rw [List.head?_reverse] at hc
    rw [hl] at hc
    cases hc
    exact hbb
  rw [hmr]
  exact List.reverse_reverse m

/-- Restoring a one-entry table is a single marker replacement. -/
theorem restoreBlocks_single (base b content : List Char) :
    restoreBlocks base [b] content =
      replaceAll (markerFor base 0) ('\n' :: '\n' :: b ++ ['\n', '\n']) content := by
  unfold restoreBlocks
  rfl

/-- `headOK` heads avoid every pattern-starting character. -/
theorem headOK_props {c : Char} {cs : List Char} (h : headOK (c :: cs) = true) :
    c ≠ '<' ∧ c ≠ '&' ∧ c ≠ '\n' ∧ c ≠ ']' := by
  refine ⟨?_, ?_, ?_, ?_⟩ <;> intro he <;> subst he <;> simp [headOK] at h

/-- Tag matchers fail on a second-character mismatch. -/
theorem tagMatcher_none_second {p2 : Char} {ps cl : List Char} {b : List Char → List Char}
    {c2 : Char} {cs : List Char} (h : p2 ≠ c2) :
    tagMatcher ('<' :: p2 :: ps) cl b ('<' :: c2 :: cs) = none := by
  have hd : dropLit ('<' :: p2 :: ps) ('<' :: c2 :: cs) = none := by
    simp [dropLit, h]
  simp [tagMatcher, hd]

/-- C4 witness: the theorem applied at a concrete whitespace-free
string. -/
theorem C4_second_pass_identity_witness :
    html_to_markdown "hi mom" = "hi mom" :=
  C4_second_pass_identity "hi mom" (by decide) (by decide) (by decide)
    (by intro c h; cases h; rfl) (by decide)

/-- C1 (amended): an iframe block whose internal content the earlier
stages leave alone is reproduced byte-for-byte — for any body free of
`<`, `&`, newlines and `]`, the whole input `<iframe>body</iframe>`
survives the pipeline exactly.  (The counterexample shows the blanket
claim fails: internal markup is rewritten before the block is
extracted.) -/
theorem C1_iframe_block_preserved (body : String)
    (hb : ∀ c ∈ body.data, c ≠ '<' ∧ c ≠ '&' ∧ c ≠ '\n' ∧ c ≠ ']') :
    html_to_markdown ("<iframe>" ++ body ++ "</iframe>") =
      "<iframe>" ++ body ++ "</iframe>" := by
  have hsd0 : ("<iframe>" ++ body ++ "</iframe>").data =
      "<iframe>".data ++ (body.data ++ "</iframe>".data) := by
    simp [String.data_append]
  have hmaster : ∀ t, t ≠ [] →
      t <:+ "<iframe>".data ++ (body.data ++ "</iframe>".data) →
      t = "<iframe>".data ++ (body.data ++ "</iframe>".data) ∨
      t = "</iframe>".data ∨
      (∃ c cs, t = c :: cs ∧ c ≠ '<' ∧ c ≠ '&' ∧ c ≠ '\n' ∧ c ≠ ']') := by
    intro t ht hsfx
    rcases suffix_append_cases hsfx with h | ⟨t₁, ht₁, hne, rfl⟩
    · rcases suffix_append_cases h with h2 | ⟨t₂, ht₂, hne₂, rfl⟩
      · have hdec : ∀ u ∈ ("</iframe>".data).tails,
            u = "</iframe>".data ∨ u = [] ∨ headOK u = true := by decide
        rcases hdec t ((List.mem_tails _ _).mpr h2) with h3 | h3 | h3
        · exact Or.inr (Or.inl h3)
        · exact absurd h3 ht
        · cases t with
          | nil => exact absurd rfl ht
          | cons c cs =>
            rcases headOK_props h3 with ⟨p1, p2, p3, p4⟩
            exact Or.inr (Or.inr ⟨c, cs, rfl, p1, p2, p3, p4⟩)
      · cases t₂ with
        | nil => exact absurd rfl hne₂
        | cons c cs =>
          have hcB : c ∈ body.data := ht₂.sublist.mem (List.mem_cons_self c cs)
          rcases hb c hcB with ⟨p1, p2, p3, p4⟩
          exact Or.inr (Or.inr ⟨c, cs ++ "</iframe>".data, rfl, p1, p2, p3, p4⟩)
    · have hdec : ∀ u ∈ ("<iframe>".data).tails,
          u = "<iframe>".data ∨ u = [] ∨ headOK u = true := by decide
      rcases hdec t₁ ((List.mem_tails _ _).mpr ht₁) with h3 | h3 | h3
      · subst h3; exact Or.inl rfl
      · exact absurd h3 hne
      · cases t₁ with
        | nil => exact absurd rfl hne
        | cons c cs =>
          rcases headOK_props h3 with ⟨p1, p2, p3, p4⟩
          exact Or.inr (Or.inr
            ⟨c, cs ++ (body.data ++ "</iframe>".data), rfl, p1, p2, p3, p4⟩)
  have hstage : ∀ (m : Matcher),
      m ("<iframe>".data ++ (body.data ++ "</iframe>".data)) = none →
      m "</iframe>".data = none →
      (∀ c cs, c ≠ '<' → c ≠ '&' → c ≠ '\n' → c ≠ ']' → m (c :: cs) = none) →
      runSub m ("<iframe>".data ++ (body.data ++ "</iframe>".data)) =
        "<iframe>".data ++ (body.data ++ "</iframe>".data) := by
    intro m h1 h2 h3
    apply runSub_id
    intro t ht hsfx
    rcases hmaster t ht hsfx with rfl | rfl | ⟨c, cs, rfl, hc1, hc2, hc3, hc4⟩
    · exact h1
    · exact h2
    · exact h3 c cs hc1 hc2 hc3 hc4
  have hrep : ∀ (old new : List Char),
      dropLit old ("<iframe>".data ++ (body.data ++ "</iframe>".data)) = none →
      dropLit old "</iframe>".data = none →
      (∀ c cs, c ≠ '<' → c ≠ '&' → c ≠ '\n' → c ≠ ']' → dropLit old (c :: cs) = none) →
      dropLit old [] = none →
      replaceAll old new ("<iframe>".data ++ (body.data ++ "</iframe>".data)) =
        "<iframe>".data ++ (body.data ++ "</iframe>".data) := by
    intro old new h1 h2 h3 h0
    apply replaceAll_id
    intro t hsfx
    by_cases ht : t = []
    · subst ht; exact h0
    · rcases hmaster t ht hsfx with rfl | rfl | ⟨c, cs, rfl, hc1, hc2, hc3, hc4⟩
      · exact h1
      · exact h2
      · exact h3 c cs hc1 hc2 hc3 hc4
  -- stage 0: entity unescape
  have e0 : runSub unescMatch ("<iframe>".data ++ (body.data ++ "</iframe>".data)) =
      "<iframe>".data ++ (body.data ++ "</iframe>".data) := by
    apply hstage
    · exact unescMatch_none_head (by decide)
    · exact unescMatch_none_head (by decide)
    · intro c cs _ h2 _ _
      exact unescMatch_none_head h2
  -- stage 1: CDATA wrappers
  have e1 : replaceAll "<![CDATA[".data []
      ("<iframe>".data ++ (body.data ++ "</iframe>".data)) =
      "<iframe>".data ++ (body.data ++ "</iframe>".data) := by
    apply hrep
    · show dropLit "<![CDATA[".data
        ('<' :: 'i' :: ("frame>".data ++ (body.data ++ "</iframe>".data))) = none
      simp [dropLit]
    · decide
    · intro c cs h1 _ _ _
      rw [show "<![CDATA[".data = '<' :: '!' :: "[CDATA[".data from rfl]
      exact dropLit_ne_head (fun e => h1 e.symm)
    · rfl
  have e2 : replaceAll "]]>".data []
      ("<iframe>".data ++ (body.data ++ "</iframe>".data)) =
      "<iframe>".data ++ (body.data ++ "</iframe>".data) := by
    apply hrep
    · show dropLit "]]>".data
        ('<' :: 'i' :: ("frame>".data ++ (body.data ++ "</iframe>".data))) = none
      rw [show "]]>".data = ']' :: "]>".data from rfl]
      exact dropLit_ne_head (by decide)
    · decide
    · intro c cs _ _ _ h4
      rw [show "]]>".data = ']' :: "]>".data from rfl]
      exact dropLit_ne_head (fun e => h4 e.symm)
    · rfl
  -- headings
  have eh : ∀ (n : Nat), runSub (hMatcher n)
      ("<iframe>".data ++ (body.data ++ "</iframe>".data)) =
      "<iframe>".data ++ (body.data ++ "</iframe>".data) := by
    intro n
    apply hstage
    · show hMatcher n
        ('<' :: 'i' :: ("frame>".data ++ (body.data ++ "</iframe>".data))) = none
      simp [hMatcher, tagMatcher, dropLit]
    · show hMatcher n ('<' :: '/' :: "iframe>".data) = none
      simp [hMatcher, tagMatcher, dropLit]
    · intro c cs h1 _ _ _
      exact hMatcher_none_head h1
  have e3 : headingPass ("<iframe>".data ++ (body.data ++ "</iframe>".data)) =
      "<iframe>".data ++ (body.data ++ "</iframe>".data) := by
    simp only [headingPass, List.foldl_cons, List.foldl_nil, eh]
  -- the second-character-mismatch tag stages
  have etagstage : ∀ (p2 : Char) (ps cl : List Char) (b : List Char → List Char),
      p2 ≠ 'i' →
      tagMatcher ('<' :: p2 :: ps) cl b "</iframe>".data = none →
      runSub (tagMatcher ('<' :: p2 :: ps) cl b)
        ("<iframe>".data ++ (body.data ++ "</iframe>".data)) =
        "<iframe>".data ++ (body.data ++ "</iframe>".data) := by
    intro p2 ps cl b hne hcl
    apply hstage
    · show tagMatcher ('<' :: p2 :: ps) cl b
        ('<' :: 'i' :: ("frame>".data ++ (body.data ++ "</iframe>".data))) = none
      exact tagMatcher_none_second hne
    · exact hcl
    · intro c cs h1 _ _ _
      exact tagMatcher_none_head rfl h1
  have ebq : runSub (tagMatcher "<blockquote".data "</blockquote>".data bqBuild)
      ("<iframe>".data ++ (body.data ++ "</iframe>".data)) =
      "<iframe>".data ++ (body.data ++ "</iframe>".data) :=
    etagstage 'b' "lockquote".data "</blockquote>".data bqBuild (by decide) (by decide)
  have eol : runSub (tagMatcher "<ol".data "</ol>".data olBuild)
      ("<iframe>".data ++ (body.data ++ "</iframe>".data)) =
      "<iframe>".data ++ (body.data ++ "</iframe>".data) :=
    etagstage 'o' ['l'] "</ol>".data olBuild (by decide) (by decide)
  have eul : runSub (tagMatcher "<ul".data "</ul>".data ulBuild)
      ("<iframe>".data ++ (body.data ++ "</iframe>".data)) =
      "<iframe>".data ++ (body.data ++ "</iframe>".data) :=
    etagstage 'u' ['l'] "</ul>".data ulBuild (by decide) (by decide)
  have est : runSub (tagMatcher "<strong".data "</strong>".data
      (fun g => '*' :: '*' :: g ++ "**".data))
      ("<iframe>".data ++ (body.data ++ "</iframe>".data)) =
      "<iframe>".data ++ (body.data ++ "</iframe>".data) :=
    etagstage 's' "trong".data "</strong>".data
      (fun g => '*' :: '*' :: g ++ "**".data) (by decide) (by decide)
  have ebd : runSub (tagMatcher "<b".data "</b>".data
      (fun g => '*' :: '*' :: g ++ "**".data))
      ("<iframe>".data ++ (body.data ++ "</iframe>".data)) =
      "<iframe>".data ++ (body.data ++ "</iframe>".data) :=
    etagstage 'b' [] "</b>".data
      (fun g => '*' :: '*' :: g ++ "**".data) (by decide) (by decide)
  have eem : runSub (tagMatcher "<em".data "</em>".data (fun g => '*' :: g ++ ['*']))
      ("<iframe>".data ++ (body.data ++ "</iframe>".data)) =
      "<iframe>".data ++ (body.data ++ "</iframe>".data) :=
    etagstage 'e' ['m'] "</em>".data (fun g => '*' :: g ++ ['*']) (by decide) (by decide)
  have epp : runSub (tagMatcher "<p".data "</p>".data (fun g => g ++ ['\n', '\n']))
      ("<iframe>".data ++ (body.data ++ "</iframe>".data)) =
      "<iframe>".data ++ (body.data ++ "</iframe>".data) :=
    etagstage 'p' [] "</p>".data (fun g => g ++ ['\n', '\n']) (by decide) (by decide)
  -- italic: opener matches, but no `</i>` literal exists anywhere
  have eit : runSub (tagMatcher "<i".data "</i>".data (fun g => '*' :: g ++ ['*']))
      ("<iframe>".data ++ (body.data ++ "</iframe>".data)) =
      "<iframe>".data ++ (body.data ++ "</iframe>".data) := by
    apply hstage
    · have h3 : splitAtFirst "</i>".data (body.data ++ "</iframe>".data) = none := by
        rw [splitAtFirst_none_iff]
        intro t hsfx
        by_cases ht : t = []
        · subst ht; rfl
        · rcases suffix_append_cases hsfx with hcl | ⟨t₂, ht₂, hne₂, rfl⟩
          · have hdec : ∀ u ∈ ("</iframe>".data).tails,
                dropLit "</i>".data u = none := by decide
            exact hdec t ((List.mem_tails _ _).mpr hcl)
          · cases t₂ with
            | nil => exact absurd rfl hne₂
            | cons c cs =>
              have hcB : c ∈ body.data := ht₂.sublist.mem (List.mem_cons_self c cs)
              rw [show "</i>".data = '<' :: "/i>".data from rfl]
              exact dropLit_ne_head (fun e => (hb c hcB).1 e.symm)
      have h3a : splitAtFirst ['<', '/', 'i', '>']
          (body.data ++ ['<', '/', 'i', 'f', 'r', 'a', 'm', 'e', '>']) = none := h3
      simp [tagMatcher, dropLit, h3a]
    · decide
    · intro c cs h1 _ _ _
      exact tagMatcher_none_head rfl h1
  -- links, images, line breaks
  have ea : runSub aMatcher ("<iframe>".data ++ (body.data ++ "</iframe>".data)) =
      "<iframe>".data ++ (body.data ++ "</iframe>".data) := by
    apply hstage
    · show aMatcher ('<' :: 'i' :: ("frame>".data ++ (body.data ++ "</iframe>".data))) = none
      simp [aMatcher, dropLit]
    · decide
    · intro c cs h1 _ _ _
      exact aMatcher_none_head h1
  have ei1 : runSub img1Matcher ("<iframe>".data ++ (body.data ++ "</iframe>".data)) =
      "<iframe>".data ++ (body.data ++ "</iframe>".data) := by
    apply hstage
    · show img1Matcher
        ('<' :: 'i' :: 'f' :: ("rame>".data ++ (body.data ++ "</iframe>".data))) = none
      simp [img1Matcher, dropLit]
    · decide
    · intro c cs h1 _ _ _
      exact img1Matcher_none_head h1
  have ei2 : runSub img2Matcher ("<iframe>".data ++ (body.data ++ "</iframe>".data)) =
      "<iframe>".data ++ (body.data ++ "</iframe>".data) := by
    apply hstage
    · show img2Matcher
        ('<' :: 'i' :: 'f' :: ("rame>".data ++ (body.data ++ "</iframe>".data))) = none
      simp [img2Matcher, dropLit]
    · decide
    · intro c cs h1 _ _ _
      exact img2Matcher_none_head h1
  have ebr : runSub brMatcher ("<iframe>".data ++ (body.data ++ "</iframe>".data)) =
      "<iframe>".data ++ (body.data ++ "</iframe>".data) := by
    apply hstage
    · show brMatcher ('<' :: 'i' :: ("frame>".data ++ (body.data ++ "</iframe>".data))) = none
      simp [brMatcher, dropLit]
    · decide
    · intro c cs h1 _ _ _
      exact brMatcher_none_head h1
  -- the iframe extraction matches the whole input
  have hembed : embedMatch "iframe".data
      ("<iframe>".data ++ (body.data ++ "</iframe>".data)) =
      some ("<iframe>".data ++ (body.data ++ "</iframe>".data), []) := by
    have h1 : dropLitCI ('<' :: "iframe".data)
        ("<iframe>".data ++ (body.data ++ "</iframe>".data)) =
        some ("<iframe".data, '>' :: (body.data ++ "</iframe>".data)) := rfl
    have h2 : splitAtFirstCI ('<' :: '/' :: "iframe".data ++ ['>'])
        (body.data ++ "</iframe>".data) =
        some (body.data, "</iframe>".data, []) :=
      splitAtFirstCI_glue (fun c hc => (hb c hc).1) (by decide)
    have h1b : ('>' :: (body.data ++ "</iframe>".data)).dropWhile
        (fun c => !decide (c = '>')) = '>' :: (body.data ++ "</iframe>".data) := rfl
    have h2b : splitAtFirstCI (['<', '/', 'i', 'f', 'r', 'a', 'm', 'e'] ++ ['>'])
        (body.data ++ ['<', '/', 'i', 'f', 'r', 'a', 'm', 'e', '>']) =
        some (body.data, ['<', '/', 'i', 'f', 'r', 'a', 'm', 'e', '>'], []) := h2
    have h2c : splitAtFirstCI ['<', '/', 'i', 'f', 'r', 'a', 'm', 'e', '>']
        (body.data ++ ['<', '/', 'i', 'f', 'r', 'a', 'm', 'e', '>']) =
        some (body.data, ['<', '/', 'i', 'f', 'r', 'a', 'm', 'e', '>'], []) := h2
    unfold embedMatch
    rw [h1]
    dsimp only
    rw [h1b]
    dsimp only
    simp [h2b, h2c]
  have eext : extract "IFRAME".data "iframe".data
      ("<iframe>".data ++ (body.data ++ "</iframe>".data)) =
      (["<iframe>".data ++ (body.data ++ "</iframe>".data)], markerFor "IFRAME".data 0) :=
    extract_whole hembed (by
      rw [show "<iframe>".data ++ (body.data ++ "</iframe>".data) =
        '<' :: 'i' :: ("frame>".data ++ (body.data ++ "</iframe>".data)) from rfl]
      simp)
  have escr : extract "SCRIPT".data "script".data (markerFor "IFRAME".data 0) =
      ([], markerFor "IFRAME".data 0) := by decide
  have estrip : runSub stripTagMatcher (markerFor "IFRAME".data 0) =
      markerFor "IFRAME".data 0 := by decide
  have erest : restoreBlocks "IFRAME".data
      ["<iframe>".data ++ (body.data ++ "</iframe>".data)] (markerFor "IFRAME".data 0) =
      ('\n' :: '\n' :: ("<iframe>".data ++ (body.data ++ "</iframe>".data))) ++
        ['\n', '\n'] :=
    (restoreBlocks_single "IFRAME".data
      ("<iframe>".data ++ (body.data ++ "</iframe>".data))
      (markerFor "IFRAME".data 0)).trans (replaceAll_self (by decide))
  -- suffix analysis of the blank-line-wrapped block
  have hmaster2 : ∀ t, t ≠ [] →
      t <:+ ('\n' :: '\n' :: ("<iframe>".data ++ (body.data ++ "</iframe>".data))) ++
        ['\n', '\n'] →
      t = ('\n' :: '\n' :: ("<iframe>".data ++ (body.data ++ "</iframe>".data))) ++
          ['\n', '\n'] ∨
      t = ('\n' :: ("<iframe>".data ++ (body.data ++ "</iframe>".data))) ++ ['\n', '\n'] ∨
      t = ("<iframe>".data ++ (body.data ++ "</iframe>".data)) ++ ['\n', '\n'] ∨
      t = "</iframe>".data ++ ['\n', '\n'] ∨
      t = ['\n', '\n'] ∨ t = ['\n'] ∨
      (∃ c cs, t = c :: cs ∧ c ≠ '<' ∧ c ≠ '&' ∧ c ≠ '\n' ∧ c ≠ ']') := by
    intro t ht hsfx
    have hsfx2 : t <:+ ['\n', '\n'] ++
        (("<iframe>".data ++ (body.data ++ "</iframe>".data)) ++ ['\n', '\n']) := by
      simpa using hsfx
    rcases suffix_append_cases hsfx2 with h | ⟨t₁, ht₁, hne, rfl⟩
    · rcases suffix_append_cases h with h2 | ⟨t₂, ht₂, hne₂, rfl⟩
      · have hdec : ∀ u ∈ (['\n', '\n']).tails,
            u = ['\n', '\n'] ∨ u = ['\n'] ∨ u = [] := by decide
        rcases hdec t ((List.mem_tails _ _).mpr h2) with h3 | h3 | h3
        · exact Or.inr (Or.inr (Or.inr (Or.inr (Or.inl h3))))
        · exact Or.inr (Or.inr (Or.inr (Or.inr (Or.inr (Or.inl h3)))))
        · exact absurd h3 ht
      · rcases hmaster t₂ hne₂ ht₂ with rfl | rfl | ⟨c, cs, rfl, p1, p2, p3, p4⟩
        · exact Or.inr (Or.inr (Or.inl rfl))
        · exact Or.inr (Or.inr (Or.inr (Or.inl rfl)))
        · exact Or.inr (Or.inr (Or.inr (Or.inr (Or.inr (Or.inr
            ⟨c, cs ++ ['\n', '\n'], rfl, p1, p2, p3, p4⟩)))))
    · have hdec : ∀ u ∈ (['\n', '\n']).tails,
          u = ['\n', '\n'] ∨ u = ['\n'] ∨ u = [] := by decide
      rcases hdec t₁ ((List.mem_tails _ _).mpr ht₁) with h3 | h3 | h3
      · subst h3
        exact Or.inl (by simp)
      · subst h3
        exact Or.inr (Or.inl (by simp))
      · exact absurd h3 hne
  have hstage2 : ∀ (m : Matcher),
      m (('\n' :: '\n' :: ("<iframe>".data ++ (body.data ++ "</iframe>".data))) ++
        ['\n', '\n']) = none →
      m (('\n' :: ("<iframe>".data ++ (body.data ++ "</iframe>".data))) ++
        ['\n', '\n']) = none →
      m (("<iframe>".data ++ (body.data ++ "</iframe>".data)) ++ ['\n', '\n']) = none →
      m ("</iframe>".data ++ ['\n', '\n']) = none →
      m ['\n', '\n'] = none → m ['\n'] = none →
      (∀ c cs, c ≠ '<' → c ≠ '&' → c ≠ '\n' → c ≠ ']' → m (c :: cs) = none) →
      runSub m (('\n' :: '\n' :: ("<iframe>".data ++ (body.data ++ "</iframe>".data))) ++
        ['\n', '\n']) =
        ('\n' :: '\n' :: ("<iframe>".data ++ (body.data ++ "</iframe>".data))) ++
          ['\n', '\n'] := by
    intro m h1 h2 h3 h4 h5 h6 h7
    apply runSub_id
    intro t ht hsfx
    rcases hmaster2 t ht hsfx with rfl | rfl | rfl | rfl | rfl | rfl |
      ⟨c, cs, rfl, hc1, hc2, hc3, hc4⟩
    · exact h1
    · exact h2
    · exact h3
    · exact h4
    · exact h5
    · exact h6
    · exact h7 c cs hc1 hc2 hc3 hc4
  have ecol : runSub nlMatcher
      (('\n' :: '\n' :: ("<iframe>".data ++ (body.data ++ "</iframe>".data))) ++
        ['\n', '\n']) =
      ('\n' :: '\n' :: ("<iframe>".data ++ (body.data ++ "</iframe>".data))) ++
        ['\n', '\n'] := by
    apply hstage2
    · apply nlMatcher_none
      show dropLit ['\n', '\n', '\n']
        ('\n' :: '\n' :: '<' :: 'i' ::
          (("frame>".data ++ (body.data ++ "</iframe>".data)) ++ ['\n', '\n'])) = none
      simp [dropLit]
    · apply nlMatcher_none
      show dropLit ['\n', '\n', '\n']
        ('\n' :: '<' :: 'i' ::
          (("frame>".data ++ (body.data ++ "</iframe>".data)) ++ ['\n', '\n'])) = none
      simp [dropLit]
    · apply nlMatcher_none
      show dropLit ['\n', '\n', '\n']
        ('<' :: 'i' ::
          (("frame>".data ++ (body.data ++ "</iframe>".data)) ++ ['\n', '\n'])) = none
      exact dropLit_ne_head (by decide)
    · decide
    · decide
    · decide
    · intro c cs _ _ h3 _
      exact nlMatcher_none (dropLit_ne_head (fun e => h3 e.symm))
  have eent2 : ∀ (old : List Char) (new : List Char), old.head? = some '&' →
      replaceAll old new
        (('\n' :: '\n' :: ("<iframe>".data ++ (body.data ++ "</iframe>".data))) ++
          ['\n', '\n']) =
        ('\n' :: '\n' :: ("<iframe>".data ++ (body.data ++ "</iframe>".data))) ++
          ['\n', '\n'] := by
    intro old new hold
    obtain ⟨o, os, rfl⟩ : ∃ o os, old = o :: os := by
      cases old with
      | nil => cases hold
      | cons o os => exact ⟨o, os, rfl⟩
    simp only [List.head?_cons, Option.some.injEq] at hold
    subst hold
    apply replaceAll_id
    intro t hsfx
    by_cases ht : t = []
    · subst ht; rfl
    · rcases hmaster2 t ht hsfx with rfl | rfl | rfl | rfl | rfl | rfl |
        ⟨c, cs, rfl, hc1, hc2, hc3, hc4⟩
      · exact dropLit_ne_head (by decide)
      · exact dropLit_ne_head (by decide)
      · show dropLit ('&' :: os)
          ('<' :: 'i' ::
            (("frame>".data ++ (body.data ++ "</iframe>".data)) ++ ['\n', '\n'])) = none
        exact dropLit_ne_head (by decide)
      · exact dropLit_ne_head (by decide)
      · exact dropLit_ne_head (by decide)
      · exact dropLit_ne_head (by decide)
      · exact dropLit_ne_head (fun e => hc2 e.symm)
  have hlast : ("<iframe>".data ++ (body.data ++ "</iframe>".data)).getLast? =
      some '>' := by
    rw [List.getLast?_append, List.getLast?_append]
    simp
  have eps : pyStrip
      (('\n' :: '\n' :: ("<iframe>".data ++ (body.data ++ "</iframe>".data))) ++
        ['\n', '\n']) =
      "<iframe>".data ++ (body.data ++ "</iframe>".data) :=
    pyStrip_wrap (a := '<') (b := '>')
      (by rw [show "<iframe>".data ++ (body.data ++ "</iframe>".data) =
        '<' :: 'i' :: ("frame>".data ++ (body.data ++ "</iframe>".data)) from rfl]; rfl)
      (by decide) hlast (by decide)
  -- assemble the pipeline
  have hmain : htmlToMarkdownL ("<iframe>".data ++ (body.data ++ "</iframe>".data)) =
      "<iframe>".data ++ (body.data ++ "</iframe>".data) := by
    have hne : ("<iframe>".data ++ (body.data ++ "</iframe>".data)).isEmpty = false := rfl
    rw [htmlToMarkdownL, if_neg (by simp [hne])]
    simp only [e0, e1, e2, e3, ebq, eol, eul, est, ebd, eem, eit, ea, ei1, ei2, ebr,
      epp, eext, escr, estrip, erest, restoreBlocks_nil, ecol,
      eent2 "&nbsp;".data [' '] (by decide), eent2 "&amp;".data ['&'] (by decide),
      eent2 "&quot;".data ['"'] (by decide), eent2 "&lt;".data ['<'] (by decide),
      eent2 "&gt;".data ['>'] (by decide)]
    exact eps
  show String.mk (htmlToMarkdownL ("<iframe>" ++ body ++ "</iframe>").data) = _
  rw [hsd0, hmain, ← hsd0]

/-- C1 witness: the theorem applied at a concrete plain-text body. -/
theorem C1_iframe_block_preserved_witness :
    html_to_markdown "<iframe>Video content</iframe>" =
      "<iframe>Video content</iframe>" :=
  C1_iframe_block_preserved "Video content" (by decide)

/-- C9 witness: the theorem applied to the example document. -/
theorem C9_field_defaults_witness :
    ∃ item, item ∈ findallItems exDoc ∧
      mkPost (_detect_wp_namespace exDoc) exItem = mkPost (_detect_wp_namespace exDoc) item ∧
      (findChild item ("\x7b" ++ (_detect_wp_namespace exDoc).content ++ "\x7dencoded") = none →
        (mkPost (_detect_wp_namespace exDoc) exItem).content = some "") ∧
      (∀ el, findChild item
          ("\x7b" ++ (_detect_wp_namespace exDoc).content ++ "\x7dencoded") = some el →
        (mkPost (_detect_wp_namespace exDoc) exItem).content = el.text) ∧
      (findChild item ("\x7b" ++ (_detect_wp_namespace exDoc).wp ++ "\x7dpost_date") = none →
        (mkPost (_detect_wp_namespace exDoc) exItem).date = some "") ∧
      (∀ el, findChild item ("\x7b" ++ (_detect_wp_namespace exDoc).wp ++ "\x7dpost_date") = some el →
        (mkPost (_detect_wp_namespace exDoc) exItem).date = el.text) ∧
      (findChild item ("\x7b" ++ (_detect_wp_namespace exDoc).wp ++ "\x7dpost_name") = none →
        (mkPost (_detect_wp_namespace exDoc) exItem).slug = some "") ∧
      (∀ el, findChild item ("\x7b" ++ (_detect_wp_namespace exDoc).wp ++ "\x7dpost_name") = some el →
        (mkPost (_detect_wp_namespace exDoc) exItem).slug = el.text) :=
  C9_field_defaults exDoc none none (mkPost (_detect_wp_namespace exDoc) exItem) (by decide)

end WpMd
